import Mathlib

/-!
Shallow embedding of `src/app.py` from the update-aws-ip-ranges project,
together with proofs about its reconciliation logic.

Modelling conventions:
* Python strings are modelled as `String` / `List Char`; Python integers are
  unbounded, as is Lean `Nat`.
* `ipaddress.IPv4Network` / `ipaddress.IPv6Network` values are modelled by the
  `Network` structure (family tag, network address, prefix length), and the
  parsing performed by their constructors (and by `ipaddress.ip_network`) is
  modelled by executable parsers over character lists.
* Remote AWS calls made through the boto3 clients are modelled as a trace of
  `AwsCall` events; the client objects are modelled as the data their read
  calls return.  Functions that can raise return `Except String`.
-/

namespace AwsIpRanges

/-! ## Characters and numerals -/

/-- Decimal digit test for a character (ASCII only, as `str.isdigit` on the
inputs that matter here). -/
def isDigitCh (c : Char) : Bool := 48 ≤ c.toNat && c.toNat ≤ 57

/-- The character for a single decimal digit. -/
def digitChar (n : Nat) : Char := Char.ofNat (48 + n)

/-- Numeric value of a decimal digit character. -/
def digitVal (c : Char) : Nat := c.toNat - 48

/-- Hexadecimal digit test (both cases, as Python `_HEX_DIGITS`). -/
def isHexCh (c : Char) : Bool :=
  isDigitCh c || (97 ≤ c.toNat && c.toNat ≤ 102) || (65 ≤ c.toNat && c.toNat ≤ 70)

/-- Numeric value of a hexadecimal digit character. -/
def hexVal (c : Char) : Nat :=
  if isDigitCh c then digitVal c
  else if 97 ≤ c.toNat then c.toNat - 87
  else c.toNat - 55

/-- Lower-case hexadecimal digit character, as Python `"%x"` formatting. -/
def hexChar (n : Nat) : Char :=
  if n < 10 then digitChar n else Char.ofNat (87 + n)

/-- Decimal value of a digit string (the effect of Python `int(s)` once the
digits have been validated). -/
def decVal (ds : List Char) : Nat := ds.foldl (fun a c => a * 10 + digitVal c) 0

/-- Hexadecimal value of a digit string (Python `int(s, 16)`). -/
def hexValList (ds : List Char) : Nat := ds.foldl (fun a c => a * 16 + hexVal c) 0

/-- Fuelled decimal rendering, little helper behind `natToChars`. -/
def natToCharsAux : Nat → Nat → List Char
  | 0, _ => []
  | fuel + 1, n =>
    if n < 10 then [digitChar n]
    else natToCharsAux fuel (n / 10) ++ [digitChar (n % 10)]

/-- Decimal rendering of a natural number (Python `str(int)`). -/
def natToChars (n : Nat) : List Char := natToCharsAux (n + 1) n

theorem digitVal_digitChar {n : Nat} (h : n < 10) : digitVal (digitChar n) = n := by
  interval_cases n <;> decide

theorem isDigitCh_digitChar {n : Nat} (h : n < 10) : isDigitCh (digitChar n) = true := by
  interval_cases n <;> decide

theorem digitChar_ne_zero {n : Nat} (h1 : n < 10) (h2 : 1 ≤ n) :
    digitChar n ≠ digitChar 0 := by
  interval_cases n <;> decide

theorem decVal_append_digit (xs : List Char) (c : Char) :
    decVal (xs ++ [c]) = decVal xs * 10 + digitVal c := by
  simp [decVal, List.foldl_append]

theorem natToCharsAux_spec :
    ∀ fuel n, n < fuel →
      decVal (natToCharsAux fuel n) = n ∧ natToCharsAux fuel n ≠ [] ∧
      ∀ c ∈ natToCharsAux fuel n, isDigitCh c = true := by
  intro fuel
  induction fuel with
  | zero => intro n h; omega
  | succ fuel ih =>
    intro n h
    by_cases hn : n < 10
    · refine ⟨?_, ?_, ?_⟩ <;> simp [natToCharsAux, hn, decVal, digitVal_digitChar,
        isDigitCh_digitChar]
    · have hdiv : n / 10 < fuel := by
        have h1 : n / 10 < n := Nat.div_lt_self (by omega) (by omega)
        omega
      obtain ⟨ihv, ihne, ihd⟩ := ih (n / 10) hdiv
      refine ⟨?_, ?_, ?_⟩
      · simp only [natToCharsAux, if_neg hn]
        rw [decVal_append_digit, ihv, digitVal_digitChar (Nat.mod_lt _ (by omega))]
        omega
      · simp [natToCharsAux, hn]
      · intro c hc
        simp only [natToCharsAux, if_neg hn, List.mem_append, List.mem_singleton] at hc
        rcases hc with hc | hc
        · exact ihd c hc
        · subst hc; exact isDigitCh_digitChar (Nat.mod_lt _ (by omega))

theorem natToChars_decVal (n : Nat) : decVal (natToChars n) = n :=
  (natToCharsAux_spec (n + 1) n (Nat.lt_succ_self n)).1

theorem natToChars_ne_nil (n : Nat) : natToChars n ≠ [] :=
  (natToCharsAux_spec (n + 1) n (Nat.lt_succ_self n)).2.1

theorem natToChars_digits (n : Nat) : ∀ c ∈ natToChars n, isDigitCh c = true :=
  (natToCharsAux_spec (n + 1) n (Nat.lt_succ_self n)).2.2

theorem natToCharsAux_head_ne_zero :
    ∀ fuel n, n < fuel → 1 ≤ n →
      (natToCharsAux fuel n).head? ≠ some (digitChar 0) := by
  intro fuel
  induction fuel with
  | zero => intro n h; omega
  | succ fuel ih =>
    intro n h h1
    by_cases hn : n < 10
    · simp only [natToCharsAux, if_pos hn, List.head?]
      intro hc
      exact digitChar_ne_zero hn h1 (by injection hc)
    · have hdiv : n / 10 < fuel := by
        have := Nat.div_lt_self (show 0 < n by omega) (show 1 < 10 by omega)
        omega
      have h10 : 1 ≤ n / 10 := by omega
      have ihx := ih (n / 10) hdiv h10
      obtain ⟨_, hne, _⟩ := natToCharsAux_spec fuel (n / 10) hdiv
      simp only [natToCharsAux, if_neg hn]
      cases hx : natToCharsAux fuel (n / 10) with
      | nil => exact absurd hx hne
      | cons a as => simpa [hx] using ihx

theorem natToChars_head_ne_zero {n : Nat} (h : 1 ≤ n) :
    (natToChars n).head? ≠ some (digitChar 0) :=
  natToCharsAux_head_ne_zero (n + 1) n (Nat.lt_succ_self n) h

theorem natToCharsAux_len1 :
    ∀ fuel n, n < fuel → n ≤ 9 → (natToCharsAux fuel n).length = 1 := by
  intro fuel n h h9
  cases fuel with
  | zero => omega
  | succ fuel => simp [natToCharsAux, show n < 10 by omega]

theorem natToCharsAux_len2 :
    ∀ fuel n, n < fuel → n ≤ 99 → (natToCharsAux fuel n).length ≤ 2 := by
  intro fuel
  cases fuel with
  | zero => intro n h; omega
  | succ fuel =>
    intro n h h99
    by_cases hn : n < 10
    · simp [natToCharsAux, hn]
    · have hd : n / 10 < fuel := by
        have := Nat.div_lt_self (show 0 < n by omega) (show 1 < 10 by omega)
        omega
      have : (natToCharsAux fuel (n / 10)).length = 1 :=
        natToCharsAux_len1 fuel (n / 10) hd (by omega)
      simp [natToCharsAux, hn, this]

theorem natToCharsAux_len3 :
    ∀ fuel n, n < fuel → n ≤ 255 → (natToCharsAux fuel n).length ≤ 3 := by
  intro fuel
  cases fuel with
  | zero => intro n h; omega
  | succ fuel =>
    intro n h h255
    by_cases hn : n < 10
    · simp [natToCharsAux, hn]
    · have hd : n / 10 < fuel := by
        have := Nat.div_lt_self (show 0 < n by omega) (show 1 < 10 by omega)
        omega
      have : (natToCharsAux fuel (n / 10)).length ≤ 2 :=
        natToCharsAux_len2 fuel (n / 10) hd (by omega)
      simp only [natToCharsAux, if_neg hn, List.length_append, List.length_singleton]
      omega

theorem natToChars_len3 {n : Nat} (h : n ≤ 255) : (natToChars n).length ≤ 3 :=
  natToCharsAux_len3 (n + 1) n (Nat.lt_succ_self n) h

/-- Fuelled lower-case hexadecimal rendering helper. -/
def natToHexAux : Nat → Nat → List Char
  | 0, _ => []
  | fuel + 1, n =>
    if n < 16 then [hexChar n]
    else natToHexAux fuel (n / 16) ++ [hexChar (n % 16)]

/-- Lower-case hexadecimal rendering without padding (Python `"%x" % n`). -/
def hexGroupShort (n : Nat) : List Char := natToHexAux (n + 1) n

/-! ## Splitting and joining character lists -/

/-- Python `str.split(sep)` on a character list: always returns at least one
part, and empty parts where separators are adjacent. -/
def splitOnCh (sep : Char) : List Char → List (List Char)
  | [] => [[]]
  | c :: cs =>
    if c = sep then [] :: splitOnCh sep cs
    else
      match splitOnCh sep cs with
      | [] => [[c]]
      | p :: ps => (c :: p) :: ps

/-- Python `sep.join(parts)` on character lists. -/
def joinSep (sep : Char) : List (List Char) → List Char
  | [] => []
  | [p] => p
  | p :: ps => p ++ sep :: joinSep sep ps

/-! ## Networks -/

/-- A parsed `ipaddress.IPv4Network` or `ipaddress.IPv6Network` value: the
address family, the network address as an unbounded natural, and the prefix
length. -/
structure Network where
  isV6 : Bool
  addr : Nat
  plen : Nat
deriving DecidableEq, Repr

/-- Bit width of the address family. -/
def Network.width (n : Network) : Nat := if n.isV6 then 128 else 32

/-- The well-formedness facts guaranteed for every network produced by the
(strict) Python constructors: the address fits the family, the prefix length
is in range, and no host bits are set. -/
def Network.Valid (n : Network) : Prop :=
  n.addr < 2 ^ n.width ∧ n.plen ≤ n.width ∧ n.addr % 2 ^ (n.width - n.plen) = 0

instance (n : Network) : Decidable n.Valid := by
  unfold Network.Valid; infer_instance

/-! ## Parsing (models the `ipaddress` constructors used by `app.py`) -/

/-- One dotted-quad octet, as Python `_parse_octet`: 1 to 3 decimal digits,
no leading zero, value at most 255. -/
def parseOctetPart (ds : List Char) : Option Nat :=
  if ds = [] then none
  else if ¬ ds.all isDigitCh then none
  else if ds.length > 3 then none
  else if ds.length > 1 ∧ ds.head? = some (digitChar 0) then none
  else if decVal ds > 255 then none
  else some (decVal ds)

/-- A prefix length, as Python `_prefix_from_prefix_string`: decimal digits
only, value at most the family width. -/
def parsePlenPart (w : Nat) (ds : List Char) : Option Nat :=
  if ds = [] then none
  else if ¬ ds.all isDigitCh then none
  else if decVal ds > w then none
  else some (decVal ds)

/-- An IPv6 hextet, as Python `_parse_hextet`: 1 to 4 hex digits. -/
def parseHexPart (ds : List Char) : Option Nat :=
  if ds = [] then none
  else if ¬ ds.all isHexCh then none
  else if ds.length > 4 then none
  else some (hexValList ds)

/-- Map a fallible function over a list, failing if any element fails
(the effect of a Python list comprehension over a raising constructor). -/
def mapOpt {α β : Type} (f : α → Option β) : List α → Option (List β)
  | [] => some []
  | a :: as =>
    match f a, mapOpt f as with
    | some b, some bs => some (b :: bs)
    | _, _ => none

/-- Dotted-quad IPv4 address, as Python `IPv4Network._ip_int_from_string`. -/
def parseIPv4Addr (cs : List Char) : Option Nat :=
  match splitOnCh '.' cs with
  | [a, b, c, d] =>
    match parseOctetPart a, parseOctetPart b, parseOctetPart c, parseOctetPart d with
    | some va, some vb, some vc, some vd =>
      some (va * 16777216 + vb * 65536 + vc * 256 + vd)
    | _, _, _, _ => none
  | _ => none

/-- `ipaddress.IPv4Network(s)` with the default `strict=True`: returns `none`
where Python raises (bad syntax, prefix out of range, host bits set).  A bare
address without `/` gets prefix length 32, as in Python. -/
def parseIPv4Network (s : String) : Option Network :=
  match splitOnCh '/' s.toList with
  | [addrPart] =>
    match parseIPv4Addr addrPart with
    | some a => some { isV6 := false, addr := a, plen := 32 }
    | none => none
  | [addrPart, plenPart] =>
    match parseIPv4Addr addrPart, parsePlenPart 32 plenPart with
    | some a, some p =>
      if a % 2 ^ (32 - p) = 0 then some { isV6 := false, addr := a, plen := p }
      else none
    | _, _ => none
  | _ => none

/-- Accumulate 16-bit groups into an address value (the shift-or loop of
Python `IPv6Network._ip_int_from_string`). -/
def groupsVal (gs : List Nat) : Nat := gs.foldl (fun a g => a * 65536 + g) 0

/-- Index of the first empty part, if any. -/
def firstEmptyIdx : List (List Char) → Option Nat
  | [] => none
  | p :: ps => if p.isEmpty then some 0 else (firstEmptyIdx ps).map (· + 1)

/-- The no-`::` case of Python `IPv6Network._ip_int_from_string`: exactly
eight non-empty hex groups. -/
def parseV6NoGap (parts : List (List Char)) : Option Nat :=
  if parts.length = 8 ∧ parts.head? ≠ some [] ∧ parts.getLast? ≠ some [] then
    match mapOpt parseHexPart parts with
    | some gs => some (groupsVal gs)
    | none => none
  else none

/-- The groups before a `::` gap at interior position `i + 1`: a leading
empty part is only legal when the gap directly follows it. -/
def v6HiParts (parts : List (List Char)) (i : Nat) : Option (List (List Char)) :=
  if parts.head? = some [] then (if i + 1 = 1 then some [] else none)
  else some (parts.take (i + 1))

/-- The groups after a `::` gap at interior position `i + 1`: a trailing
empty part is only legal when the gap directly precedes it. -/
def v6LoParts (parts : List (List Char)) (i : Nat) : Option (List (List Char)) :=
  if parts.getLast? = some [] then
    (if (parts.drop (i + 2)).length = 1 then some [] else none)
  else some (parts.drop (i + 2))

/-- The single-`::` case of Python `IPv6Network._ip_int_from_string`, with the
gap at interior position `i + 1` of `parts`: the groups before and after the
gap, with zero groups filling the middle. -/
def parseV6Gap (parts : List (List Char)) (i : Nat) : Option Nat :=
  if (((parts.drop 1).dropLast).drop (i + 1)).any (fun p => p.isEmpty) then none
  else
    match v6HiParts parts i, v6LoParts parts i with
    | some hiParts, some loParts =>
      if hiParts.length + loParts.length ≥ 8 then none
      else
        match mapOpt parseHexPart hiParts, mapOpt parseHexPart loParts with
        | some ghi, some glo =>
          some (groupsVal
            (ghi ++ List.replicate (8 - (hiParts.length + loParts.length)) 0 ++ glo))
        | _, _ => none
    | _, _ => none

/-- IPv6 address text, mirroring Python `IPv6Network._ip_int_from_string`:
colon-separated hex groups with at most one `::` gap.  The embedded-IPv4 tail
form (`::ffff:1.2.3.4`) is not modelled and yields `none`. -/
def parseIPv6Addr (cs : List Char) : Option Nat :=
  if (splitOnCh ':' cs).length < 3 then none
  else if (splitOnCh ':' cs).length > 9 then none
  else if cs.contains '.' then none
  else
    match firstEmptyIdx (((splitOnCh ':' cs).drop 1).dropLast) with
    | none => parseV6NoGap (splitOnCh ':' cs)
    | some i => parseV6Gap (splitOnCh ':' cs) i

/-- `ipaddress.IPv6Network(s)` with the default `strict=True`. -/
def parseIPv6Network (s : String) : Option Network :=
  match splitOnCh '/' s.toList with
  | [addrPart] =>
    match parseIPv6Addr addrPart with
    | some a => some { isV6 := true, addr := a, plen := 128 }
    | none => none
  | [addrPart, plenPart] =>
    match parseIPv6Addr addrPart, parsePlenPart 128 plenPart with
    | some a, some p =>
      if a % 2 ^ (128 - p) = 0 then some { isV6 := true, addr := a, plen := p }
      else none
    | _, _ => none
  | _ => none

/-- `ipaddress.ip_network(s)`: try IPv4 first, then IPv6. -/
def ip_network (s : String) : Option Network :=
  match parseIPv4Network s with
  | some n => some n
  | none => parseIPv6Network s

/-! ## Rendering -/

/-- Dotted-quad rendering of an IPv4 address value. -/
def renderOctets (a : Nat) : List Char :=
  natToChars (a / 16777216 % 256) ++ '.' :: (natToChars (a / 65536 % 256) ++
    '.' :: (natToChars (a / 256 % 256) ++ '.' :: natToChars (a % 256)))

/-- Python `IPv4Network.with_prefixlen` (`"a.b.c.d/p"`). -/
def withPrefixlenV4 (n : Network) : String :=
  String.mk (renderOctets n.addr ++ '/' :: natToChars n.plen)

/-- Zero-padded 4-digit hexadecimal group. -/
def toHex4 (g : Nat) : List Char :=
  [hexChar (g / 4096 % 16), hexChar (g / 256 % 16), hexChar (g / 16 % 16), hexChar (g % 16)]

/-- The eight 16-bit groups of an IPv6 address value, most significant first. -/
def v6Groups (a : Nat) : List Nat :=
  [a / 5192296858534827628530496329220096 % 65536,
   a / 79228162514264337593543950336 % 65536,
   a / 1208925819614629174706176 % 65536,
   a / 18446744073709551616 % 65536,
   a / 281474976710656 % 65536,
   a / 4294967296 % 65536,
   a / 65536 % 65536,
   a % 65536]

/-- Python `IPv6Network.exploded`: all eight groups fully padded. -/
def explodedV6 (n : Network) : String :=
  String.mk (joinSep ':' ((v6Groups n.addr).map toHex4) ++ '/' :: natToChars n.plen)

/-- Length of the initial run of zero groups. -/
def runLen : List Nat → Nat
  | [] => 0
  | g :: gs => if g = 0 then runLen gs + 1 else 0

/-- First longest zero run `(start, length)`, as Python `_compress_hextets`. -/
def bestRun (gs : List Nat) : Nat × Nat :=
  (List.range gs.length).foldl
    (fun best i =>
      let l := runLen (gs.drop i)
      if l > best.2 then (i, l) else best)
    (0, 0)

/-- Compressed IPv6 group text (Python `str` form, `::` for the first longest
zero run of length at least two, unpadded groups otherwise). -/
def compressGroups (gs : List Nat) : List Char :=
  let b := bestRun gs
  if b.2 ≥ 2 then
    let leftStrs := (gs.take b.1).map hexGroupShort
    let rightStrs := (gs.drop (b.1 + b.2)).map hexGroupShort
    let parts :=
      (if b.1 = 0 then [([] : List Char)] else []) ++ leftStrs ++ [[]] ++ rightStrs ++
        (if b.1 + b.2 = gs.length then [([] : List Char)] else [])
    joinSep ':' parts
  else joinSep ':' (gs.map hexGroupShort)

/-- Python `IPv6Network.with_prefixlen` (compressed form). -/
def withPrefixlenV6 (n : Network) : String :=
  String.mk (compressGroups (v6Groups n.addr) ++ '/' :: natToChars n.plen)

/-- Python `.with_prefixlen` across both families, as used on values of type
`Union[IPv4Network, IPv6Network]` in `app.py`. -/
def Network.withPrefixlen (n : Network) : String :=
  if n.isV6 then withPrefixlenV6 n else withPrefixlenV4 n

/-! ## Round trips between rendering and parsing -/

theorem splitOnCh_sep_free {sep : Char} :
    ∀ {xs : List Char}, (∀ c ∈ xs, c ≠ sep) → splitOnCh sep xs = [xs] := by
  intro xs
  induction xs with
  | nil => intro _; rfl
  | cons c cs ih =>
    intro h
    have hc : ¬ (c = sep) := h c (by simp)
    have hcs := ih (fun d hd => h d (by simp [hd]))
    simp [splitOnCh, hc, hcs]

theorem splitOnCh_append {sep : Char} :
    ∀ {xs : List Char}, ∀ rest : List Char, (∀ c ∈ xs, c ≠ sep) →
      splitOnCh sep (xs ++ sep :: rest) = xs :: splitOnCh sep rest := by
  intro xs
  induction xs with
  | nil => intro rest _; simp [splitOnCh]
  | cons c cs ih =>
    intro rest h
    have hc : ¬ (c = sep) := h c (by simp)
    have hcs := ih rest (fun d hd => h d (by simp [hd]))
    simp [splitOnCh, hc, hcs]

theorem splitOnCh_joinSep {sep : Char} :
    ∀ parts : List (List Char), parts ≠ [] →
      (∀ p ∈ parts, ∀ c ∈ p, c ≠ sep) →
      splitOnCh sep (joinSep sep parts) = parts := by
  intro parts
  induction parts with
  | nil => intro h; exact absurd rfl h
  | cons p ps ih =>
    intro _ h
    cases ps with
    | nil => exact splitOnCh_sep_free (h p (by simp))
    | cons q qs =>
      have hj : joinSep sep (p :: q :: qs) = p ++ sep :: joinSep sep (q :: qs) := rfl
      rw [hj, splitOnCh_append _ (h p (by simp)),
        ih (by simp) (fun r hr c hc => h r (by simp [hr]) c hc)]

theorem mem_joinSep {sep : Char} :
    ∀ {parts : List (List Char)} {c : Char}, c ∈ joinSep sep parts →
      c = sep ∨ ∃ p ∈ parts, c ∈ p := by
  intro parts
  induction parts with
  | nil => intro c hc; simp [joinSep] at hc
  | cons p ps ih =>
    intro c hc
    cases ps with
    | nil => exact Or.inr ⟨p, by simp, hc⟩
    | cons q qs =>
      have hj : joinSep sep (p :: q :: qs) = p ++ sep :: joinSep sep (q :: qs) := rfl
      rw [hj] at hc
      rcases List.mem_append.mp hc with hp | hrest
      · exact Or.inr ⟨p, by simp, hp⟩
      · rcases List.mem_cons.mp hrest with rfl | hrest
        · exact Or.inl rfl
        · rcases ih hrest with h | ⟨r, hr, hcr⟩
          · exact Or.inl h
          · exact Or.inr ⟨r, by simp [List.mem_cons.mp hr], hcr⟩

theorem contains_eq_false_of_not_mem {c : Char} :
    ∀ {l : List Char}, c ∉ l → l.contains c = false := by
  intro l
  induction l with
  | nil => intro _; rfl
  | cons x xs ih =>
    intro h
    have hx : ¬ (c = x) := fun hc => h (by simp [hc])
    have : (c == x) = false := by simpa using hx
    simp only [List.contains, List.elem_cons, this]
    exact ih (fun hc => h (by simp [hc]))

theorem digit_ne_dot {c : Char} (h : isDigitCh c = true) : c ≠ '.' := by
  intro hc; subst hc; exact absurd h (by decide)

theorem digit_ne_slash {c : Char} (h : isDigitCh c = true) : c ≠ '/' := by
  intro hc; subst hc; exact absurd h (by decide)

theorem digit_ne_colon {c : Char} (h : isDigitCh c = true) : c ≠ ':' := by
  intro hc; subst hc; exact absurd h (by decide)

theorem hex_ne_dot {c : Char} (h : isHexCh c = true) : c ≠ '.' := by
  intro hc; subst hc; exact absurd h (by decide)

theorem hex_ne_slash {c : Char} (h : isHexCh c = true) : c ≠ '/' := by
  intro hc; subst hc; exact absurd h (by decide)

theorem hex_ne_colon {c : Char} (h : isHexCh c = true) : c ≠ ':' := by
  intro hc; subst hc; exact absurd h (by decide)

theorem parseOctetPart_natToChars {k : Nat} (h : k ≤ 255) :
    parseOctetPart (natToChars k) = some k := by
  have hd := natToChars_digits k
  have hne := natToChars_ne_nil k
  have hv := natToChars_decVal k
  have hlen := natToChars_len3 h
  have hall : (natToChars k).all isDigitCh = true := List.all_eq_true.mpr hd
  have hlz : ¬ ((natToChars k).length > 1 ∧ (natToChars k).head? = some (digitChar 0)) := by
    rcases Nat.eq_zero_or_pos k with h0 | h1
    · subst h0
      rintro ⟨hl, -⟩
      simp [natToChars, natToCharsAux] at hl
    · rintro ⟨-, hh⟩
      exact natToChars_head_ne_zero h1 hh
  unfold parseOctetPart
  rw [if_neg hne, if_neg (by simp [hall]), if_neg (by omega), if_neg hlz,
    if_neg (by omega), hv]

theorem parsePlenPart_natToChars {w p : Nat} (h : p ≤ w) :
    parsePlenPart w (natToChars p) = some p := by
  have hd := natToChars_digits p
  have hne := natToChars_ne_nil p
  have hv := natToChars_decVal p
  have hall : (natToChars p).all isDigitCh = true := List.all_eq_true.mpr hd
  unfold parsePlenPart
  rw [if_neg hne, if_neg (by simp [hall]), if_neg (by omega), hv]

theorem hexVal_hexChar {m : Nat} (h : m < 16) : hexVal (hexChar m) = m := by
  interval_cases m <;> decide

theorem isHexCh_hexChar {m : Nat} (h : m < 16) : isHexCh (hexChar m) = true := by
  interval_cases m <;> decide

theorem parseHexPart_toHex4 {g : Nat} (h : g < 65536) :
    parseHexPart (toHex4 g) = some g := by
  have m0 : g % 16 < 16 := Nat.mod_lt _ (by omega)
  have m1 : g / 16 % 16 < 16 := Nat.mod_lt _ (by omega)
  have m2 : g / 256 % 16 < 16 := Nat.mod_lt _ (by omega)
  have m3 : g / 4096 % 16 < 16 := Nat.mod_lt _ (by omega)
  have hall : (toHex4 g).all isHexCh = true := by
    simp [toHex4, isHexCh_hexChar, m0, m1, m2, m3]
  unfold parseHexPart
  rw [if_neg (by simp [toHex4]), if_neg (by simp [hall]), if_neg (by simp [toHex4])]
  have hv : hexValList (toHex4 g) =
      ((g / 4096 % 16 * 16 + g / 256 % 16) * 16 + g / 16 % 16) * 16 + g % 16 := by
    simp [hexValList, toHex4, List.foldl, hexVal_hexChar, m0, m1, m2, m3]
  rw [hv]
  have e1 : g % 16 + 16 * (g / 16) = g := Nat.mod_add_div g 16
  have e2 : g / 16 % 16 + 16 * (g / 16 / 16) = g / 16 := Nat.mod_add_div _ 16
  have e3 : g / 16 / 16 = g / 256 := by rw [Nat.div_div_eq_div_mul]
  have e4 : g / 256 % 16 + 16 * (g / 256 / 16) = g / 256 := Nat.mod_add_div _ 16
  have e5 : g / 256 / 16 = g / 4096 := by rw [Nat.div_div_eq_div_mul]
  have e6 : g / 4096 % 16 = g / 4096 := Nat.mod_eq_of_lt (by omega)
  congr 1
  omega

theorem natToChars_ne_dot (k : Nat) : ∀ c ∈ natToChars k, c ≠ '.' :=
  fun c hc => digit_ne_dot (natToChars_digits k c hc)

theorem natToChars_ne_slash (k : Nat) : ∀ c ∈ natToChars k, c ≠ '/' :=
  fun c hc => digit_ne_slash (natToChars_digits k c hc)

theorem ne_slash_of_append_dot {A B : List Char} (hA : ∀ c ∈ A, c ≠ '/')
    (hB : ∀ c ∈ B, c ≠ '/') : ∀ c ∈ A ++ '.' :: B, c ≠ '/' := by
  intro c hc
  rcases List.mem_append.mp hc with h | h
  · exact hA c h
  · rcases List.mem_cons.mp h with rfl | h
    · decide
    · exact hB c h

theorem renderOctets_ne_slash {a : Nat} : ∀ c ∈ renderOctets a, c ≠ '/' := by
  unfold renderOctets
  exact ne_slash_of_append_dot (natToChars_ne_slash _)
    (ne_slash_of_append_dot (natToChars_ne_slash _)
      (ne_slash_of_append_dot (natToChars_ne_slash _) (natToChars_ne_slash _)))

theorem parseIPv4Addr_renderOctets {a : Nat} (h : a < 4294967296) :
    parseIPv4Addr (renderOctets a) = some a := by
  have o3 : a / 16777216 % 256 ≤ 255 := by omega
  have o2 : a / 65536 % 256 ≤ 255 := by omega
  have o1 : a / 256 % 256 ≤ 255 := by omega
  have o0 : a % 256 ≤ 255 := by omega
  have hsplit : splitOnCh '.' (renderOctets a) =
      [natToChars (a / 16777216 % 256), natToChars (a / 65536 % 256),
       natToChars (a / 256 % 256), natToChars (a % 256)] := by
    unfold renderOctets
    rw [splitOnCh_append _ (natToChars_ne_dot _), splitOnCh_append _ (natToChars_ne_dot _),
      splitOnCh_append _ (natToChars_ne_dot _), splitOnCh_sep_free (natToChars_ne_dot _)]
  unfold parseIPv4Addr
  rw [hsplit]
  simp only [parseOctetPart_natToChars o3, parseOctetPart_natToChars o2,
    parseOctetPart_natToChars o1, parseOctetPart_natToChars o0, Option.some.injEq]
  omega

theorem parseIPv4Network_render {n : Network} (hv : n.Valid) (h6 : n.isV6 = false) :
    parseIPv4Network (withPrefixlenV4 n) = some n := by
  obtain ⟨v6, addr, plen⟩ := n
  simp only at h6
  subst h6
  obtain ⟨ha, hp, hal⟩ := hv
  simp only [Network.width] at ha hp hal
  norm_num at ha hp hal
  unfold withPrefixlenV4 parseIPv4Network
  have htl : (String.mk (renderOctets addr ++ '/' :: natToChars plen)).toList =
      renderOctets addr ++ '/' :: natToChars plen := rfl
  rw [htl, splitOnCh_append _ renderOctets_ne_slash,
    splitOnCh_sep_free (natToChars_ne_slash _)]
  simp only [parseIPv4Addr_renderOctets ha, parsePlenPart_natToChars hp]
  rw [if_pos hal]

theorem mapOpt_map_roundtrip {α β : Type} (f : β → Option α) (t : α → β) :
    ∀ l : List α, (∀ x ∈ l, f (t x) = some x) → mapOpt f (l.map t) = some l := by
  intro l
  induction l with
  | nil => intro _; rfl
  | cons x xs ih =>
    intro h
    have hx := h x (by simp)
    have hxs := ih (fun y hy => h y (by simp [hy]))
    simp [mapOpt, hx, hxs]

theorem toHex4_hex {g : Nat} : ∀ c ∈ toHex4 g, isHexCh c = true := by
  intro c hc
  simp only [toHex4, List.mem_cons, List.not_mem_nil, or_false] at hc
  rcases hc with rfl | rfl | rfl | rfl <;> exact isHexCh_hexChar (Nat.mod_lt _ (by omega))

theorem toHex4_ne_nil {g : Nat} : toHex4 g ≠ [] := by simp [toHex4]

theorem toHex4_isEmpty {g : Nat} : (toHex4 g).isEmpty = false := rfl

theorem toHex4_ne_colon {g : Nat} : ∀ c ∈ toHex4 g, c ≠ ':' :=
  fun c hc => hex_ne_colon (toHex4_hex c hc)

theorem groupsVal_v6Groups {a : Nat}
    (h : a < 340282366920938463463374607431768211456) :
    groupsVal (v6Groups a) = a := by
  simp only [groupsVal, v6Groups, List.foldl]
  omega

theorem parseIPv6Addr_join8 {g0 g1 g2 g3 g4 g5 g6 g7 : Nat}
    (h0 : g0 < 65536) (h1 : g1 < 65536) (h2 : g2 < 65536) (h3 : g3 < 65536)
    (h4 : g4 < 65536) (h5 : g5 < 65536) (h6 : g6 < 65536) (h7 : g7 < 65536) :
    parseIPv6Addr (joinSep ':'
      [toHex4 g0, toHex4 g1, toHex4 g2, toHex4 g3,
       toHex4 g4, toHex4 g5, toHex4 g6, toHex4 g7]) =
      some (groupsVal [g0, g1, g2, g3, g4, g5, g6, g7]) := by
  have hsplit : splitOnCh ':' (joinSep ':'
      [toHex4 g0, toHex4 g1, toHex4 g2, toHex4 g3,
       toHex4 g4, toHex4 g5, toHex4 g6, toHex4 g7]) =
      [toHex4 g0, toHex4 g1, toHex4 g2, toHex4 g3,
       toHex4 g4, toHex4 g5, toHex4 g6, toHex4 g7] := by
    refine splitOnCh_joinSep _ (by simp) ?_
    intro p hp
    simp only [List.mem_cons, List.not_mem_nil, or_false] at hp
    rcases hp with rfl | rfl | rfl | rfl | rfl | rfl | rfl | rfl <;>
      exact fun c hc => toHex4_ne_colon c hc
  have hdot : (joinSep ':'
      [toHex4 g0, toHex4 g1, toHex4 g2, toHex4 g3,
       toHex4 g4, toHex4 g5, toHex4 g6, toHex4 g7]).contains '.' = false := by
    apply contains_eq_false_of_not_mem
    intro hmem
    rcases mem_joinSep hmem with h | ⟨p, hp, hcp⟩
    · exact absurd h (by decide)
    · simp only [List.mem_cons, List.not_mem_nil, or_false] at hp
      rcases hp with rfl | rfl | rfl | rfl | rfl | rfl | rfl | rfl <;>
        exact hex_ne_dot (toHex4_hex _ hcp) rfl
  have hmap : mapOpt parseHexPart
      [toHex4 g0, toHex4 g1, toHex4 g2, toHex4 g3,
       toHex4 g4, toHex4 g5, toHex4 g6, toHex4 g7] =
      some [g0, g1, g2, g3, g4, g5, g6, g7] := by
    simp [mapOpt, parseHexPart_toHex4 h0, parseHexPart_toHex4 h1,
      parseHexPart_toHex4 h2, parseHexPart_toHex4 h3, parseHexPart_toHex4 h4,
      parseHexPart_toHex4 h5, parseHexPart_toHex4 h6, parseHexPart_toHex4 h7]
  have hfe : firstEmptyIdx ((([toHex4 g0, toHex4 g1, toHex4 g2, toHex4 g3,
      toHex4 g4, toHex4 g5, toHex4 g6, toHex4 g7].drop 1)).dropLast) = none := by
    simp [firstEmptyIdx, toHex4_isEmpty]
  unfold parseIPv6Addr
  rw [hsplit]
  rw [if_neg (by norm_num), if_neg (by norm_num), if_neg (by rw [hdot]; simp)]
  simp only [hfe]
  unfold parseV6NoGap
  rw [if_pos ⟨by norm_num, by simp [toHex4], by simp [toHex4]⟩, hmap]

theorem joinHex_ne_slash {gs : List Nat} :
    ∀ c ∈ joinSep ':' (gs.map toHex4), c ≠ '/' := by
  intro c hc
  rcases mem_joinSep hc with h | ⟨p, hp, hcp⟩
  · subst h; decide
  · rcases List.mem_map.mp hp with ⟨g, -, rfl⟩
    exact hex_ne_slash (toHex4_hex c hcp)

theorem parseIPv6Network_render {n : Network} (hv : n.Valid) (h6 : n.isV6 = true) :
    parseIPv6Network (explodedV6 n) = some n := by
  obtain ⟨v6, addr, plen⟩ := n
  simp only at h6
  subst h6
  obtain ⟨ha, hp, hal⟩ := hv
  simp only [Network.width] at ha hp hal
  norm_num at ha hp hal
  have haddr : parseIPv6Addr (joinSep ':' ((v6Groups addr).map toHex4)) = some addr := by
    have hmap : (v6Groups addr).map toHex4 =
        [toHex4 (addr / 5192296858534827628530496329220096 % 65536),
         toHex4 (addr / 79228162514264337593543950336 % 65536),
         toHex4 (addr / 1208925819614629174706176 % 65536),
         toHex4 (addr / 18446744073709551616 % 65536),
         toHex4 (addr / 281474976710656 % 65536),
         toHex4 (addr / 4294967296 % 65536),
         toHex4 (addr / 65536 % 65536),
         toHex4 (addr % 65536)] := by simp [v6Groups]
    rw [hmap, parseIPv6Addr_join8 (Nat.mod_lt _ (by omega)) (Nat.mod_lt _ (by omega))
      (Nat.mod_lt _ (by omega)) (Nat.mod_lt _ (by omega)) (Nat.mod_lt _ (by omega))
      (Nat.mod_lt _ (by omega)) (Nat.mod_lt _ (by omega)) (Nat.mod_lt _ (by omega))]
    exact congrArg some (groupsVal_v6Groups ha)
  unfold explodedV6 parseIPv6Network
  have htl : (String.mk (joinSep ':' ((v6Groups addr).map toHex4) ++
      '/' :: natToChars plen)).toList =
      joinSep ':' ((v6Groups addr).map toHex4) ++ '/' :: natToChars plen := rfl
  rw [htl, splitOnCh_append _ joinHex_ne_slash,
    splitOnCh_sep_free (natToChars_ne_slash _)]
  simp only [haddr, parsePlenPart_natToChars hp]
  rw [if_pos hal]

/-! ## Sorting and collapsing networks

`app.py` sorts networks with Python `sorted`, whose comparison key for
networks is the pair (network address, netmask), and collapses them with
`ipaddress.collapse_addresses`, which merges duplicate, contained and sibling
networks until no more merging is possible and yields the result in sorted
order. -/

/-- The Python ordering on networks of one family: by network address, then
by netmask (equivalently prefix length). -/
def netLE (a b : Network) : Prop :=
  a.addr < b.addr ∨ (a.addr = b.addr ∧ a.plen ≤ b.plen)

instance : DecidableRel netLE := fun a b => by unfold netLE; infer_instance

instance : IsTotal Network netLE := ⟨by intro a b; unfold netLE; omega⟩

instance : IsTrans Network netLE := ⟨by intro a b c; unfold netLE; omega⟩

/-- Python `sorted` on networks. -/
def sortNets (l : List Network) : List Network := List.insertionSort netLE l

/-- Last address of a network (its broadcast address). -/
def lastAddr (n : Network) : Nat := n.addr + 2 ^ (n.width - n.plen) - 1

/-- The immediate supernet: one bit shorter prefix, address re-aligned
(`IPv4Network.supernet()`, which returns the network itself at prefix 0). -/
def supernetN (n : Network) : Network :=
  if n.plen = 0 then n
  else
    { isV6 := n.isV6
      addr := n.addr / 2 ^ (n.width - (n.plen - 1)) * 2 ^ (n.width - (n.plen - 1))
      plen := n.plen - 1 }

/-- One pass over a sorted network list: drop an entry contained in (or equal
to) its predecessor, merge two consecutive siblings into their supernet.
Structured with explicit fuel; `mergePass` supplies enough. -/
def mergePassF : Nat → List Network → List Network
  | 0, l => l
  | _ + 1, [] => []
  | _ + 1, [a] => [a]
  | fuel + 1, a :: b :: rest =>
    if lastAddr b ≤ lastAddr a then mergePassF fuel (a :: rest)
    else if supernetN a = supernetN b then mergePassF fuel (supernetN a :: rest)
    else a :: mergePassF fuel (b :: rest)

def mergePass (l : List Network) : List Network := mergePassF l.length l

/-- One collapse iteration: sort, then run a merging pass. -/
def collapseStep (l : List Network) : List Network := mergePass (sortNets l)

def collapseF : Nat → List Network → List Network
  | 0, l => l
  | fuel + 1, l =>
    let m := collapseStep l
    if m.length < l.length then collapseF fuel m else m

/-- Models `ipaddress.collapse_addresses` combined with the `sorted` that the
callers in `app.py` apply to it: iterate `collapseStep` to a fixed point. -/
def collapse_addresses (l : List Network) : List Network := collapseF l.length l

theorem mergePassF_spec :
    ∀ fuel l, l.length ≤ fuel →
      ((mergePassF fuel l).length ≤ l.length ∧
        ((mergePassF fuel l).length = l.length → mergePassF fuel l = l)) := by
  intro fuel
  induction fuel with
  | zero =>
    intro l h
    have : l = [] := List.eq_nil_of_length_eq_zero (by omega)
    subst this
    exact ⟨Nat.le_refl _, fun _ => rfl⟩
  | succ fuel ih =>
    intro l h
    match l with
    | [] => exact ⟨by simp [mergePassF], fun _ => rfl⟩
    | [a] => exact ⟨by simp [mergePassF], fun _ => rfl⟩
    | a :: b :: rest =>
      simp only [List.length_cons] at h
      by_cases h1 : lastAddr b ≤ lastAddr a
      · have := ih (a :: rest) (by simpa using by omega)
        simp only [mergePassF, if_pos h1]
        constructor
        · simp only [List.length_cons] at this ⊢; omega
        · intro hlen
          simp only [List.length_cons] at this hlen
          omega
      · by_cases h2 : supernetN a = supernetN b
        · have := ih (supernetN a :: rest) (by simpa using by omega)
          simp only [mergePassF, if_neg h1, if_pos h2]
          constructor
          · simp only [List.length_cons] at this ⊢; omega
          · intro hlen
            simp only [List.length_cons] at this hlen
            omega
        · have := ih (b :: rest) (by simpa using by omega)
          simp only [mergePassF, if_neg h1, if_neg h2]
          constructor
          · simp only [List.length_cons] at this ⊢; omega
          · intro hlen
            simp only [List.length_cons] at this hlen
            have heq : mergePassF fuel (b :: rest) = b :: rest := this.2 (by omega)
            rw [heq]

theorem mergePass_length (l : List Network) : (mergePass l).length ≤ l.length :=
  (mergePassF_spec l.length l (Nat.le_refl _)).1

theorem mergePass_eq_of_length {l : List Network}
    (h : (mergePass l).length = l.length) : mergePass l = l :=
  (mergePassF_spec l.length l (Nat.le_refl _)).2 h

theorem sortNets_length (l : List Network) : (sortNets l).length = l.length :=
  List.length_insertionSort _ _

theorem sortNets_sorted (l : List Network) : List.Sorted netLE (sortNets l) :=
  List.sorted_insertionSort _ _

theorem sortNets_of_sorted {l : List Network} (h : List.Sorted netLE l) :
    sortNets l = l :=
  List.Sorted.insertionSort_eq h

theorem collapseStep_length (l : List Network) : (collapseStep l).length ≤ l.length := by
  have h1 := mergePass_length (sortNets l)
  have h2 := sortNets_length l
  unfold collapseStep
  omega

theorem collapseStep_eq_of_length {l : List Network}
    (h : (collapseStep l).length = l.length) : collapseStep l = sortNets l := by
  unfold collapseStep at h ⊢
  exact mergePass_eq_of_length (by rw [h, sortNets_length])

theorem collapseF_fixpoint :
    ∀ fuel l, l.length ≤ fuel → collapseStep (collapseF fuel l) = collapseF fuel l := by
  intro fuel
  induction fuel with
  | zero =>
    intro l h
    have : l = [] := List.eq_nil_of_length_eq_zero (by omega)
    subst this
    rfl
  | succ fuel ih =>
    intro l h
    simp only [collapseF]
    by_cases hlt : (collapseStep l).length < l.length
    · rw [if_pos hlt]
      exact ih (collapseStep l) (by have := collapseStep_length l; omega)
    · rw [if_neg hlt]
      have hlen : (collapseStep l).length = l.length := by
        have := collapseStep_length l; omega
      have heq : collapseStep l = sortNets l := collapseStep_eq_of_length hlen
      rw [heq]
      show mergePass (sortNets (sortNets l)) = sortNets l
      rw [sortNets_of_sorted (sortNets_sorted l)]
      apply mergePass_eq_of_length
      rw [sortNets_length]
      unfold collapseStep at hlen
      exact hlen

theorem collapseF_sorted :
    ∀ fuel l, l.length ≤ fuel → List.Sorted netLE (collapseF fuel l) := by
  intro fuel
  induction fuel with
  | zero =>
    intro l h
    have : l = [] := List.eq_nil_of_length_eq_zero (by omega)
    subst this
    exact List.sorted_nil
  | succ fuel ih =>
    intro l h
    simp only [collapseF]
    by_cases hlt : (collapseStep l).length < l.length
    · rw [if_pos hlt]
      exact ih (collapseStep l) (by have := collapseStep_length l; omega)
    · rw [if_neg hlt]
      have hlen : (collapseStep l).length = l.length := by
        have := collapseStep_length l; omega
      rw [collapseStep_eq_of_length hlen]
      exact sortNets_sorted l

theorem collapseF_of_fixpoint :
    ∀ fuel l, collapseStep l = l → collapseF fuel l = l := by
  intro fuel
  cases fuel with
  | zero => intro l _; rfl
  | succ fuel =>
    intro l h
    simp only [collapseF, h]
    rw [if_neg (Nat.lt_irrefl _)]

theorem collapse_addresses_fixpoint (l : List Network) :
    collapseStep (collapse_addresses l) = collapse_addresses l :=
  collapseF_fixpoint l.length l (Nat.le_refl _)

theorem collapse_addresses_sorted (l : List Network) :
    List.Sorted netLE (collapse_addresses l) :=
  collapseF_sorted l.length l (Nat.le_refl _)

theorem collapse_addresses_idem (l : List Network) :
    collapse_addresses (collapse_addresses l) = collapse_addresses l :=
  collapseF_of_fixpoint _ _ (collapse_addresses_fixpoint l)

theorem sortNets_collapse_addresses (l : List Network) :
    sortNets (collapse_addresses l) = collapse_addresses l :=
  sortNets_of_sorted (collapse_addresses_sorted l)

/-! ## Facts guaranteed by successful parsing -/

theorem parseOctetPart_le {ds : List Char} {k : Nat} (h : parseOctetPart ds = some k) :
    k ≤ 255 := by
  unfold parseOctetPart at h
  split_ifs at h <;> first
    | exact Option.noConfusion h
    | (injection h with h; omega)

theorem parsePlenPart_le {w : Nat} {ds : List Char} {k : Nat}
    (h : parsePlenPart w ds = some k) : k ≤ w := by
  unfold parsePlenPart at h
  split_ifs at h <;> first
    | exact Option.noConfusion h
    | (injection h with h; omega)

theorem parseIPv4Addr_lt {cs : List Char} {a : Nat} (h : parseIPv4Addr cs = some a) :
    a < 4294967296 := by
  unfold parseIPv4Addr at h
  split at h <;> try exact Option.noConfusion h
  split at h <;> try exact Option.noConfusion h
  rename_i h1 h2 h3 h4
  injection h with h
  have b1 := parseOctetPart_le h1
  have b2 := parseOctetPart_le h2
  have b3 := parseOctetPart_le h3
  have b4 := parseOctetPart_le h4
  omega

theorem hexVal_lt {c : Char} (h : isHexCh c = true) : hexVal c < 16 := by
  have h' : ((48 ≤ c.toNat ∧ c.toNat ≤ 57) ∨ (97 ≤ c.toNat ∧ c.toNat ≤ 102)) ∨
      (65 ≤ c.toNat ∧ c.toNat ≤ 70) := by
    simpa [isHexCh, isDigitCh, Bool.or_eq_true, Bool.and_eq_true,
      decide_eq_true_eq] using h
  unfold hexVal digitVal
  by_cases hd : isDigitCh c = true
  · rw [if_pos hd]
    have : 48 ≤ c.toNat ∧ c.toNat ≤ 57 := by
      simpa [isDigitCh, Bool.and_eq_true, decide_eq_true_eq] using hd
    omega
  · rw [if_neg hd]
    have hd' : ¬ (48 ≤ c.toNat ∧ c.toNat ≤ 57) := by
      intro hcontra
      exact hd (by simpa [isDigitCh, Bool.and_eq_true, decide_eq_true_eq] using hcontra)
    split_ifs <;> omega

theorem hexVal_foldl_lt (ds : List Char) :
    ∀ a : Nat, (∀ c ∈ ds, isHexCh c = true) →
      ds.foldl (fun a c => a * 16 + hexVal c) a < (a + 1) * 16 ^ ds.length := by
  induction ds with
  | nil => intro a _; simpa using Nat.lt_succ_self a
  | cons c cs ih =>
    intro a h
    have hc := hexVal_lt (h c (by simp))
    have hrec := ih (a * 16 + hexVal c) (fun d hd => h d (by simp [hd]))
    simp only [List.foldl_cons, List.length_cons]
    refine Nat.lt_of_lt_of_le hrec ?_
    have hle : a * 16 + hexVal c + 1 ≤ (a + 1) * 16 := by omega
    calc (a * 16 + hexVal c + 1) * 16 ^ cs.length
        ≤ (a + 1) * 16 * 16 ^ cs.length := Nat.mul_le_mul_right _ hle
      _ = (a + 1) * 16 ^ (cs.length + 1) := by ring

theorem hexValList_lt {ds : List Char} (hhex : ∀ c ∈ ds, isHexCh c = true)
    (hlen : ds.length ≤ 4) : hexValList ds < 65536 := by
  have h1 := hexVal_foldl_lt ds 0 hhex
  have hp : (16 : Nat) ^ ds.length ≤ 16 ^ 4 := Nat.pow_le_pow_right (by omega) hlen
  unfold hexValList
  refine Nat.lt_of_lt_of_le h1 ?_
  simpa using hp

theorem parseHexPart_lt {ds : List Char} {g : Nat} (h : parseHexPart ds = some g) :
    g < 65536 := by
  unfold parseHexPart at h
  split_ifs at h with h1 h2 h3 <;> first
    | exact Option.noConfusion h
    | (injection h with h; subst h;
       exact hexValList_lt (List.all_eq_true.mp h2) (by omega))

theorem groupsVal_foldl_lt (gs : List Nat) :
    ∀ a : Nat, (∀ g ∈ gs, g < 65536) →
      gs.foldl (fun a g => a * 65536 + g) a < (a + 1) * 65536 ^ gs.length := by
  induction gs with
  | nil => intro a _; simpa using Nat.lt_succ_self a
  | cons g gs ih =>
    intro a h
    have hg := h g (by simp)
    have hrec := ih (a * 65536 + g) (fun d hd => h d (by simp [hd]))
    simp only [List.foldl_cons, List.length_cons]
    refine Nat.lt_of_lt_of_le hrec ?_
    have hle : a * 65536 + g + 1 ≤ (a + 1) * 65536 := by omega
    calc (a * 65536 + g + 1) * 65536 ^ gs.length
        ≤ (a + 1) * 65536 * 65536 ^ gs.length := Nat.mul_le_mul_right _ hle
      _ = (a + 1) * 65536 ^ (gs.length + 1) := by ring

theorem groupsVal_lt {gs : List Nat} (h : ∀ g ∈ gs, g < 65536)
    (hlen : gs.length ≤ 8) :
    groupsVal gs < 340282366920938463463374607431768211456 := by
  have h1 := groupsVal_foldl_lt gs 0 h
  have hp : (65536 : Nat) ^ gs.length ≤ 65536 ^ 8 := Nat.pow_le_pow_right (by omega) hlen
  unfold groupsVal
  refine Nat.lt_of_lt_of_le h1 ?_
  simpa using hp

theorem mapOpt_length {α β : Type} {f : α → Option β} :
    ∀ {l : List α} {bs : List β}, mapOpt f l = some bs → bs.length = l.length := by
  intro l
  induction l with
  | nil =>
    intro bs h
    simp only [mapOpt] at h
    injection h with h
    subst h
    rfl
  | cons a as ih =>
    intro bs h
    simp only [mapOpt] at h
    split at h <;> try exact Option.noConfusion h
    rename_i b bs' hb hbs
    injection h with h
    subst h
    simp [ih hbs]

theorem mapOpt_mem {α β : Type} {f : α → Option β} :
    ∀ {l : List α} {bs : List β}, mapOpt f l = some bs →
      ∀ b ∈ bs, ∃ a ∈ l, f a = some b := by
  intro l
  induction l with
  | nil =>
    intro bs h
    simp only [mapOpt] at h
    injection h with h
    subst h
    intro b hb
    exact absurd hb (by simp)
  | cons a as ih =>
    intro bs h
    simp only [mapOpt] at h
    split at h <;> try exact Option.noConfusion h
    rename_i b bs' hb hbs
    injection h with h
    subst h
    intro x hx
    rcases List.mem_cons.mp hx with rfl | hx
    · exact ⟨a, by simp, hb⟩
    · rcases ih hbs x hx with ⟨a', ha', hfa⟩
      exact ⟨a', by simp [ha'], hfa⟩

theorem parseV6NoGap_lt {parts : List (List Char)} {a : Nat}
    (h : parseV6NoGap parts = some a) :
    a < 340282366920938463463374607431768211456 := by
  unfold parseV6NoGap at h
  split_ifs at h with hcond
  split at h <;> try exact Option.noConfusion h
  rename_i gs hgs
  injection h with h
  subst h
  refine groupsVal_lt ?_ ?_
  · intro g hg
    rcases mapOpt_mem hgs g hg with ⟨p, -, hp⟩
    exact parseHexPart_lt hp
  · rw [mapOpt_length hgs, hcond.1]

theorem parseV6Gap_lt {parts : List (List Char)} {i a : Nat}
    (h : parseV6Gap parts i = some a) :
    a < 340282366920938463463374607431768211456 := by
  unfold parseV6Gap at h
  split_ifs at h with hrest
  split at h <;> try exact Option.noConfusion h
  rename_i hiParts loParts hhi hlo
  split_ifs at h with hbig
  split at h <;> try exact Option.noConfusion h
  rename_i ghi glo hghi hglo
  injection h with h
  subst h
  refine groupsVal_lt ?_ ?_
  · intro g hg
    rcases List.mem_append.mp hg with hg1 | hg2
    · rcases List.mem_append.mp hg1 with hg1a | hg1b
      · rcases mapOpt_mem hghi g hg1a with ⟨p, -, hp⟩
        exact parseHexPart_lt hp
      · have := List.eq_of_mem_replicate hg1b
        omega
    · rcases mapOpt_mem hglo g hg2 with ⟨p, -, hp⟩
      exact parseHexPart_lt hp
  · simp only [List.length_append, List.length_replicate]
    rw [mapOpt_length hghi, mapOpt_length hglo]
    omega

theorem parseIPv6Addr_lt {cs : List Char} {a : Nat} (h : parseIPv6Addr cs = some a) :
    a < 340282366920938463463374607431768211456 := by
  unfold parseIPv6Addr at h
  split_ifs at h with h1 h2 h3 <;> try exact Option.noConfusion h
  split at h
  · exact parseV6NoGap_lt h
  · exact parseV6Gap_lt h

theorem valid_of_v4 {a p : Nat} (h1 : a < 4294967296) (h2 : p ≤ 32)
    (h3 : a % 2 ^ (32 - p) = 0) : Network.Valid ⟨false, a, p⟩ := by
  refine ⟨?_, ?_, ?_⟩
  · show a < 2 ^ 32
    omega
  · exact h2
  · exact h3

theorem valid_of_v6 {a p : Nat}
    (h1 : a < 340282366920938463463374607431768211456) (h2 : p ≤ 128)
    (h3 : a % 2 ^ (128 - p) = 0) : Network.Valid ⟨true, a, p⟩ := by
  refine ⟨?_, ?_, ?_⟩
  · show a < 2 ^ 128
    omega
  · exact h2
  · exact h3

theorem parseIPv4Network_valid {s : String} {n : Network}
    (h : parseIPv4Network s = some n) : n.Valid ∧ n.isV6 = false := by
  unfold parseIPv4Network at h
  split at h <;> try exact Option.noConfusion h
  · split at h <;> try exact Option.noConfusion h
    rename_i a ha
    injection h with h
    subst h
    exact ⟨valid_of_v4 (parseIPv4Addr_lt ha) (by omega) (Nat.mod_one a), rfl⟩
  · split at h <;> try exact Option.noConfusion h
    rename_i a p ha hp
    split_ifs at h with hal
    injection h with h
    subst h
    exact ⟨valid_of_v4 (parseIPv4Addr_lt ha) (parsePlenPart_le hp) hal, rfl⟩

theorem parseIPv6Network_valid {s : String} {n : Network}
    (h : parseIPv6Network s = some n) : n.Valid ∧ n.isV6 = true := by
  unfold parseIPv6Network at h
  split at h <;> try exact Option.noConfusion h
  · split at h <;> try exact Option.noConfusion h
    rename_i a ha
    injection h with h
    subst h
    exact ⟨valid_of_v6 (parseIPv6Addr_lt ha) (by omega) (Nat.mod_one a), rfl⟩
  · split at h <;> try exact Option.noConfusion h
    rename_i a p ha hp
    split_ifs at h with hal
    injection h with h
    subst h
    exact ⟨valid_of_v6 (parseIPv6Addr_lt ha) (parsePlenPart_le hp) hal, rfl⟩

theorem ip_network_valid {s : String} {n : Network} (h : ip_network s = some n) :
    n.Valid := by
  unfold ip_network at h
  split at h
  · rename_i n' hn'
    injection h with h
    subst h
    exact (parseIPv4Network_valid hn').1
  · exact (parseIPv6Network_valid h).1

/-! ## Collapsing preserves validity and the address family -/

theorem supernetN_isV6 (n : Network) : (supernetN n).isV6 = n.isV6 := by
  unfold supernetN
  split_ifs <;> rfl

theorem supernetN_valid {n : Network} (h : n.Valid) : (supernetN n).Valid := by
  unfold supernetN
  split_ifs with hp
  · exact h
  · obtain ⟨h1, h2, h3⟩ := h
    have hw : Network.width
        { isV6 := n.isV6
          addr := n.addr / 2 ^ (n.width - (n.plen - 1)) * 2 ^ (n.width - (n.plen - 1))
          plen := n.plen - 1 } = n.width := rfl
    refine ⟨?_, ?_, ?_⟩
    · rw [hw]
      exact Nat.lt_of_le_of_lt (Nat.div_mul_le_self _ _) h1
    · rw [hw]
      show n.plen - 1 ≤ n.width
      omega
    · rw [hw]
      exact Nat.mul_mod_left _ _

theorem mergePassF_mem (P : Network → Prop) (hP : ∀ n, P n → P (supernetN n)) :
    ∀ fuel l, (∀ x ∈ l, P x) → ∀ x ∈ mergePassF fuel l, P x := by
  intro fuel
  induction fuel with
  | zero => intro l h; simpa [mergePassF] using h
  | succ fuel ih =>
    intro l h
    match l with
    | [] => simp [mergePassF]
    | [a] => simpa [mergePassF] using h
    | a :: b :: rest =>
      by_cases h1 : lastAddr b ≤ lastAddr a
      · simp only [mergePassF, if_pos h1]
        refine ih (a :: rest) ?_
        intro x hx
        rcases List.mem_cons.mp hx with rfl | hx
        · exact h x (by simp)
        · exact h x (by simp [hx])
      · by_cases h2 : supernetN a = supernetN b
        · simp only [mergePassF, if_neg h1, if_pos h2]
          refine ih (supernetN a :: rest) ?_
          intro x hx
          rcases List.mem_cons.mp hx with rfl | hx
          · exact hP a (h a (by simp))
          · exact h x (by simp [hx])
        · simp only [mergePassF, if_neg h1, if_neg h2]
          intro x hx
          rcases List.mem_cons.mp hx with rfl | hx
          · exact h x (by simp)
          · refine ih (b :: rest) ?_ x hx
            intro y hy
            rcases List.mem_cons.mp hy with rfl | hy
            · exact h y (by simp)
            · exact h y (by simp [hy])

theorem collapseStep_mem (P : Network → Prop) (hP : ∀ n, P n → P (supernetN n))
    {l : List Network} (h : ∀ x ∈ l, P x) : ∀ x ∈ collapseStep l, P x := by
  unfold collapseStep mergePass
  refine mergePassF_mem P hP _ _ ?_
  intro x hx
  exact h x ((List.mem_insertionSort _).mp hx)

theorem collapseF_mem (P : Network → Prop) (hP : ∀ n, P n → P (supernetN n)) :
    ∀ fuel l, (∀ x ∈ l, P x) → ∀ x ∈ collapseF fuel l, P x := by
  intro fuel
  induction fuel with
  | zero => intro l h; simpa [collapseF] using h
  | succ fuel ih =>
    intro l h
    simp only [collapseF]
    by_cases hlt : (collapseStep l).length < l.length
    · rw [if_pos hlt]
      exact ih (collapseStep l) (collapseStep_mem P hP h)
    · rw [if_neg hlt]
      exact collapseStep_mem P hP h

theorem collapse_addresses_mem (P : Network → Prop)
    (hP : ∀ n, P n → P (supernetN n)) {l : List Network} (h : ∀ x ∈ l, P x) :
    ∀ x ∈ collapse_addresses l, P x :=
  collapseF_mem P hP l.length l h

/-! ## The summarized lists of `app.py` -/

/-- The pure value computed by `IPv4List.summarized` when its cache is empty:
a single-element list is returned as is (not even parsed); otherwise every
entry is parsed as `IPv4Network`, the list is collapsed, sorted and rendered
with `with_prefixlen`.  `none` models the `ValueError` Python raises on an
unparsable entry. -/
def summarizeV4 (l : List String) : Option (List String) :=
  if l.length = 1 then some l
  else
    match mapOpt parseIPv4Network l with
    | some nets => some ((sortNets (collapse_addresses nets)).map withPrefixlenV4)
    | none => none

/-- The pure value computed by `IPv6List.summarized` when its cache is empty:
every entry is parsed as `IPv6Network`, the list is collapsed, sorted and
rendered in the exploded form.  There is no single-element shortcut. -/
def summarizeV6 (l : List String) : Option (List String) :=
  match mapOpt parseIPv6Network l with
  | some nets => some ((sortNets (collapse_addresses nets)).map explodedV6)
  | none => none

/-- The `IPv4List` dataclass of `app.py`: the public `ip_list` and the
private `__summarized_ip_list` cache, which starts empty. -/
structure IPv4List where
  ip_list : List String
  summarized_cache : List String
deriving Repr, DecidableEq

/-- The `IPv6List` dataclass of `app.py`. -/
structure IPv6List where
  ip_list : List String
  summarized_cache : List String
deriving Repr, DecidableEq

/-- `IPv4List.summarized`, as a state transformer over the dataclass: return
the cache when it is non-empty, else return a single-element `ip_list`
unchanged (leaving the cache empty), else compute, store and return the
summary. -/
def IPv4List.summarized (x : IPv4List) : Option (List String × IPv4List) :=
  if x.summarized_cache ≠ [] then some (x.summarized_cache, x)
  else if x.ip_list.length = 1 then some (x.ip_list, x)
  else
    match mapOpt parseIPv4Network x.ip_list with
    | some nets =>
      some ((sortNets (collapse_addresses nets)).map withPrefixlenV4,
        { x with summarized_cache :=
            (sortNets (collapse_addresses nets)).map withPrefixlenV4 })
    | none => none

/-- `IPv6List.summarized`, as a state transformer over the dataclass. -/
def IPv6List.summarized (x : IPv6List) : Option (List String × IPv6List) :=
  if x.summarized_cache ≠ [] then some (x.summarized_cache, x)
  else
    match mapOpt parseIPv6Network x.ip_list with
    | some nets =>
      some ((sortNets (collapse_addresses nets)).map explodedV6,
        { x with summarized_cache :=
            (sortNets (collapse_addresses nets)).map explodedV6 })
    | none => none

/-- On a fresh (empty-cache) list the stateful `summarized` returns exactly
the pure summary value. -/
theorem IPv4List.summarized_fresh_v4 (l : List String) :
    (IPv4List.summarized ⟨l, []⟩).map Prod.fst = summarizeV4 l := by
  unfold IPv4List.summarized summarizeV4
  simp only [ne_eq, not_true_eq_false, if_false, not_not]
  by_cases hl : l.length = 1
  · simp [hl]
  · simp only [hl, if_false, if_neg hl]
    split <;> rfl

theorem IPv6List.summarized_fresh_v6 (l : List String) :
    (IPv6List.summarized ⟨l, []⟩).map Prod.fst = summarizeV6 l := by
  unfold IPv6List.summarized summarizeV6
  simp only [ne_eq, not_true_eq_false, if_false, not_not]
  split <;> rfl

theorem summarizeV4_idem {l out : List String} (h : summarizeV4 l = some out) :
    summarizeV4 out = some out := by
  unfold summarizeV4 at h ⊢
  by_cases hl : l.length = 1
  · rw [if_pos hl] at h
    injection h with h
    subst h
    rw [if_pos hl]
  · rw [if_neg hl] at h
    split at h <;> try exact Option.noConfusion h
    rename_i nets hnets
    injection h with h
    subst h
    rw [sortNets_collapse_addresses]
    by_cases hro : ((collapse_addresses nets).map withPrefixlenV4).length = 1
    · rw [if_pos hro]
    · rw [if_neg hro]
      have hvalid : ∀ x ∈ collapse_addresses nets, x.Valid ∧ x.isV6 = false := by
        refine collapse_addresses_mem _ ?_ ?_
        · intro n hn
          exact ⟨supernetN_valid hn.1, by rw [supernetN_isV6]; exact hn.2⟩
        · intro x hx
          rcases mapOpt_mem hnets x hx with ⟨s, -, hs⟩
          exact parseIPv4Network_valid hs
      have hmap : mapOpt parseIPv4Network
          ((collapse_addresses nets).map withPrefixlenV4) =
          some (collapse_addresses nets) :=
        mapOpt_map_roundtrip _ _ _
          (fun x hx => parseIPv4Network_render (hvalid x hx).1 (hvalid x hx).2)
      simp only [hmap]
      rw [collapse_addresses_idem, sortNets_collapse_addresses]

theorem summarizeV6_idem {l out : List String} (h : summarizeV6 l = some out) :
    summarizeV6 out = some out := by
  unfold summarizeV6 at h ⊢
  split at h <;> try exact Option.noConfusion h
  rename_i nets hnets
  injection h with h
  subst h
  rw [sortNets_collapse_addresses]
  have hvalid : ∀ x ∈ collapse_addresses nets, x.Valid ∧ x.isV6 = true := by
    refine collapse_addresses_mem _ ?_ ?_
    · intro n hn
      exact ⟨supernetN_valid hn.1, by rw [supernetN_isV6]; exact hn.2⟩
    · intro x hx
      rcases mapOpt_mem hnets x hx with ⟨s, -, hs⟩
      exact parseIPv6Network_valid hs
  have hmap : mapOpt parseIPv6Network
      ((collapse_addresses nets).map explodedV6) = some (collapse_addresses nets) :=
    mapOpt_map_roundtrip _ _ _
      (fun x hx => parseIPv6Network_render (hvalid x hx).1 (hvalid x hx).2)
  simp only [hmap]
  rw [collapse_addresses_idem, sortNets_collapse_addresses]

/-- C7: summarization is idempotent for both address families: applying the
summarize operation (collapse, sort ascending, render in the family's
canonical textual form) to its own output yields the identical list. -/
theorem c7_summarize_idempotent :
    (∀ l out : List String, summarizeV4 l = some out → summarizeV4 out = some out) ∧
    (∀ l out : List String, summarizeV6 l = some out → summarizeV6 out = some out) :=
  ⟨fun _ _ h => summarizeV4_idem h, fun _ _ h => summarizeV6_idem h⟩

theorem c7_summarize_idempotent_witness :
    (summarizeV4 ["10.0.0.0/24", "10.0.1.0/24"] = some ["10.0.0.0/23"] ∧
      summarizeV4 ["10.0.0.0/23"] = some ["10.0.0.0/23"]) ∧
    (summarizeV6 ["2001:db8::/32", "2001:db8:8000::/33"] =
        some ["2001:0db8:0000:0000:0000:0000:0000:0000/32"] ∧
      summarizeV6 ["2001:0db8:0000:0000:0000:0000:0000:0000/32"] =
        some ["2001:0db8:0000:0000:0000:0000:0000:0000/32"]) :=
  ⟨⟨by decide,
    c7_summarize_idempotent.1 ["10.0.0.0/24", "10.0.1.0/24"] ["10.0.0.0/23"]
      (by decide)⟩,
   ⟨by decide,
    c7_summarize_idempotent.2 ["2001:db8::/32", "2001:db8:8000::/33"]
      ["2001:0db8:0000:0000:0000:0000:0000:0000/32"] (by decide)⟩⟩

/-- C6 counterexample: a single-element IPv6 set is re-parsed and re-rendered
by `summarized()` (exploded, lower-case form), so it is not returned
textually unchanged. -/
theorem c6_counterexample_ipv6_single_rerendered :
    (IPv6List.summarized
      ⟨["2001:0DB8:0000:0000:0000:0000:0000:0000/32"], []⟩).map Prod.fst ≠
      some ["2001:0DB8:0000:0000:0000:0000:0000:0000/32"] := by
  decide

/-- C6 (amended): a single-element IPv4 set is returned textually unchanged
by `summarized()` (it is not even parsed); a single-element IPv6 set is
re-parsed and rendered in the exploded form, so it is returned unchanged only
if it was already written that way. -/
theorem c6_amended_single_element :
    (∀ s : String, (IPv4List.summarized ⟨[s], []⟩).map Prod.fst = some [s]) ∧
    (∀ (s : String) (n : Network), parseIPv6Network s = some n →
      (IPv6List.summarized ⟨[s], []⟩).map Prod.fst = some [explodedV6 n]) := by
  constructor
  · intro s
    unfold IPv4List.summarized
    simp
  · intro s n hparse
    unfold IPv6List.summarized
    have hm : mapOpt parseIPv6Network [s] = some [n] := by simp [mapOpt, hparse]
    simp only [ne_eq, not_true_eq_false, if_false, hm]
    rfl

theorem c6_amended_single_element_witness :
    parseIPv6Network "2001:0DB8:0000:0000:0000:0000:0000:0000/32" =
      some ⟨true, 42540766411282592856903984951653826560, 32⟩ ∧
    (IPv6List.summarized
      ⟨["2001:0DB8:0000:0000:0000:0000:0000:0000/32"], []⟩).map Prod.fst =
      some [explodedV6 ⟨true, 42540766411282592856903984951653826560, 32⟩] :=
  ⟨by decide, c6_amended_single_element.2 _ _ (by decide)⟩

theorem IPv4List.summarized_of_cache_v4 {l c : List String} (h : c ≠ []) :
    IPv4List.summarized ⟨l, c⟩ = some (c, ⟨l, c⟩) := by
  unfold IPv4List.summarized
  rw [if_pos h]

theorem IPv6List.summarized_of_cache_v6 {l c : List String} (h : c ≠ []) :
    IPv6List.summarized ⟨l, c⟩ = some (c, ⟨l, c⟩) := by
  unfold IPv6List.summarized
  rw [if_pos h]

theorem IPv4List.summarized_cache_eq_v4 {x : IPv4List} {r : List String}
    {x' : IPv4List} (h : IPv4List.summarized x = some (r, x'))
    (hne : x'.summarized_cache ≠ []) : x'.summarized_cache = r := by
  unfold IPv4List.summarized at h
  split_ifs at h with h1 h2
  · injection h with h
    rw [Prod.mk.injEq] at h
    rw [← h.2, ← h.1]
  · injection h with h
    rw [Prod.mk.injEq] at h
    rw [← h.2] at hne
    exact absurd (not_not.mp h1) hne
  · split at h <;> try exact Option.noConfusion h
    injection h with h
    rw [Prod.mk.injEq] at h
    rw [← h.2, ← h.1]

theorem IPv6List.summarized_cache_eq_v6 {x : IPv6List} {r : List String}
    {x' : IPv6List} (h : IPv6List.summarized x = some (r, x'))
    (hne : x'.summarized_cache ≠ []) : x'.summarized_cache = r := by
  unfold IPv6List.summarized at h
  split_ifs at h with h1
  · injection h with h
    rw [Prod.mk.injEq] at h
    rw [← h.2, ← h.1]
  · split at h <;> try exact Option.noConfusion h
    injection h with h
    rw [Prod.mk.injEq] at h
    rw [← h.2, ← h.1]

/-- C10: once `summarized()` has been called and has cached a non-empty
result, appending further elements to `ip_list` does not change the value
returned by later `summarized()` calls: the cached result is returned and the
cache is never invalidated, for both families. -/
theorem c10_cache_never_invalidated :
    (∀ (x : IPv4List) (r : List String) (x' : IPv4List),
      IPv4List.summarized x = some (r, x') → x'.summarized_cache ≠ [] →
      ∀ xs : List String,
        IPv4List.summarized ⟨x'.ip_list ++ xs, x'.summarized_cache⟩ =
          some (r, ⟨x'.ip_list ++ xs, x'.summarized_cache⟩)) ∧
    (∀ (x : IPv6List) (r : List String) (x' : IPv6List),
      IPv6List.summarized x = some (r, x') → x'.summarized_cache ≠ [] →
      ∀ xs : List String,
        IPv6List.summarized ⟨x'.ip_list ++ xs, x'.summarized_cache⟩ =
          some (r, ⟨x'.ip_list ++ xs, x'.summarized_cache⟩)) := by
  constructor
  · intro x r x' h hne xs
    rw [IPv4List.summarized_of_cache_v4 hne, IPv4List.summarized_cache_eq_v4 h hne]
  · intro x r x' h hne xs
    rw [IPv6List.summarized_of_cache_v6 hne, IPv6List.summarized_cache_eq_v6 h hne]

/-! ## Remote calls and client models

The boto3 clients are modelled as the data their read calls return; every
call the code makes is recorded in an `AwsCall` trace, in order. -/

/-- The remote AWS calls `app.py` makes, as trace events (plus `sleep`, so
the resize wait pattern is visible in the trace). -/
inductive AwsCall where
  | getIpSet (name scope id : String)
  | updateIpSet (name scope id : String) (addresses : List String) (lockToken : String)
  | tagResource (arn : String)
  | createIpSet (name scope version : String) (addresses : List String)
  | listIpSets (scope : String)
  | getPrefixListEntries (id : String) (version : Nat)
  | modifyPrefixListMaxEntries (id name : String) (maxEntries : Nat)
  | modifyPrefixListEntries (id : String) (currentVersion : Nat) (name : String)
      (addEntries removeEntries : List String)
  | createManagedPrefixList (name : String) (entries : List String)
      (maxEntries : Nat) (family : String)
  | describePrefixLists (id : String)
  | createTags (id : String)
  | listPrefixLists
  | createResourceShare (name arn principal : String)
  | sleep (seconds : Nat)
deriving DecidableEq, Repr

/-- Calls that mutate remote state (reads, listings and waits are not). -/
def AwsCall.isMutation : AwsCall → Bool
  | .updateIpSet _ _ _ _ _ => true
  | .tagResource _ => true
  | .createIpSet _ _ _ _ => true
  | .modifyPrefixListMaxEntries _ _ _ => true
  | .modifyPrefixListEntries _ _ _ _ _ => true
  | .createManagedPrefixList _ _ _ _ => true
  | .createTags _ => true
  | .createResourceShare _ _ _ => true
  | _ => false

/-- The capacity-resize call of the prefix-list kind. -/
def AwsCall.isResize : AwsCall → Bool
  | .modifyPrefixListMaxEntries _ _ _ => true
  | _ => false

/-- The entry add/remove call of the prefix-list kind. -/
def AwsCall.isEntryModify : AwsCall → Bool
  | .modifyPrefixListEntries _ _ _ _ _ => true
  | _ => false

/-- One list-IPSets entry, as `list_waf_ipset` stores it. -/
structure WafIPSetData where
  Id : String
  LockToken : String
  Description : String
  ARN : String
deriving Repr, DecidableEq

/-- The wafv2 client, as the data its read calls return. -/
structure WafClient where
  getIpSetAddresses : List String
deriving Repr

/-- One prefix-list entry of the `describe_managed_prefix_lists` listing. -/
structure PrefixListData where
  PrefixListId : String
  MaxEntries : Nat
  Version : Nat
deriving Repr, DecidableEq

/-- The `response['PrefixList']` of the max-entries modify call. -/
structure ModifyMaxResponse where
  Version : Nat
  State : String
  StateMessage : String
deriving Repr, DecidableEq

/-- The ec2 client, as the data its read calls return: the entries of
`get_managed_prefix_list_entries` (cidr and optional description), the
response to the max-entries modify call, the `State` returned by the i-th
`get_prefix_list_by_id` poll, and the ARN returned by
`create_managed_prefix_list`. -/
structure Ec2Client where
  getEntries : List (String × Option String)
  modifyMax : ModifyMaxResponse
  pollState : Nat → String
  createArn : String

/-- Insert into a Python dict modelled as an association list: overwrite in
place when the key is present, else append. -/
def dictInsert {α β : Type} [DecidableEq α] : List (α × β) → α → β → List (α × β)
  | [], k, v => [(k, v)]
  | p :: d, k, v => if p.1 = k then (k, v) :: d else p :: dictInsert d k v

/-- First-match lookup in a Python dict modelled as an association list. -/
def dictGet {α β : Type} [DecidableEq α] (k : α) : List (α × β) → Option β
  | [] => none
  | p :: d => if p.1 = k then some p.2 else dictGet k d

/-- The dictionary-building loop of `get_ip_set_entries`: parse every address
and key it by the parsed network (`entries[network] = entrie`). -/
def buildEntriesDict : List String → List (Network × String) →
    Except String (List (Network × String))
  | [], d => .ok d
  | s :: rest, d =>
    match ip_network s with
    | some n => buildEntriesDict rest (dictInsert d n s)
    | none => .error "ValueError"

/-- The dictionary-building loop of `get_prefix_list_entries`: parse every
entry `Cidr` and key it by the parsed network, with the `Description` (or
the empty string) as value. -/
def buildPrefixEntriesDict : List (String × Option String) →
    List (Network × String) → Except String (List (Network × String))
  | [], d => .ok d
  | (cidr, desc) :: rest, d =>
    match ip_network cidr with
    | some n =>
      buildPrefixEntriesDict rest
        (dictInsert d n (match desc with | some t => t | none => ""))
    | none => .error "ValueError"

/-- Line 321 / 586 of `app.py` before rendering: the current entries whose
parsed network is not in the desired network list. -/
def entriesToRemoveNets (current desired : List Network) : List Network :=
  current.filter (fun c => decide (c ∉ desired))

/-- Line 323 / 588 of `app.py` before rendering: the desired networks not
among the current entries. -/
def entriesToAddNets (current desired : List Network) : List Network :=
  desired.filter (fun c => decide (c ∉ current))

/-- `update_waf_ipset`: parse the desired list, fetch the current entries,
diff over parsed networks; do nothing and return false when the diff is
empty, else push the entire desired list and re-tag, returning true.  The
second component is the ordered trace of remote calls. -/
def update_waf_ipset (client : WafClient) (ipset_name ipset_scope : String)
    (waf_ipset : WafIPSetData) (address_list : List String) :
    Except String Bool × List AwsCall :=
  match mapOpt ip_network address_list with
  | none => (.error "ValueError", [])
  | some network_list =>
    match buildEntriesDict client.getIpSetAddresses [] with
    | .error e => (.error e, [.getIpSet ipset_name ipset_scope waf_ipset.Id])
    | .ok current_entries =>
      let entries_to_remove : List String :=
        (entriesToRemoveNets (current_entries.map Prod.fst) network_list).map
          Network.withPrefixlen
      let entries_to_add : List String :=
        (entriesToAddNets (current_entries.map Prod.fst) network_list).map
          Network.withPrefixlen
      if entries_to_add = [] ∧ entries_to_remove = [] then
        (.ok false, [.getIpSet ipset_name ipset_scope waf_ipset.Id])
      else
        (.ok true,
          [.getIpSet ipset_name ipset_scope waf_ipset.Id,
           .updateIpSet ipset_name ipset_scope waf_ipset.Id address_list
             waf_ipset.LockToken,
           .tagResource waf_ipset.ARN])

/-- The wait-for-resize loop of `update_prefix_list` (for count in range(5):
sleep `count + (count + 1)` seconds, re-fetch, break on modify-complete),
over the remaining counts.  Returns whether the loop exited via break,
together with its trace. -/
def resizePoll (client : Ec2Client) (prefix_list_id : String) :
    List Nat → Bool × List AwsCall
  | [] => (false, [])
  | count :: rest =>
    let calls := [AwsCall.sleep (count + (count + 1)),
      AwsCall.describePrefixLists prefix_list_id]
    if client.pollState count = "modify-complete" then (true, calls)
    else
      let r := resizePoll client prefix_list_id rest
      (r.1, calls ++ r.2)

/-- `update_prefix_list`: parse the desired list, fetch the current entries,
diff over parsed networks; return false without mutating when the diff is
empty; otherwise resize first when there are entries to add and the capacity
is below the desired count (raising on a failed or unrecognized state, and
polling up to five times while the resize is in progress), then apply the
add/remove delta under the current version and re-tag.  The `Cidr` values of
the add/remove payloads are recorded in the trace events. -/
def update_prefix_list (client : Ec2Client) (prefix_list_name : String)
    (prefix_list : PrefixListData) (address_list : List String) :
    Except String Bool × List AwsCall :=
  match mapOpt ip_network address_list with
  | none => (.error "ValueError", [])
  | some network_list =>
    match buildPrefixEntriesDict client.getEntries [] with
    | .error e =>
      (.error e, [.getPrefixListEntries prefix_list.PrefixListId prefix_list.Version])
    | .ok current_entries =>
      let getCalls : List AwsCall :=
        [.getPrefixListEntries prefix_list.PrefixListId prefix_list.Version]
      let entries_to_remove : List String :=
        (entriesToRemoveNets (current_entries.map Prod.fst) network_list).map
          Network.withPrefixlen
      let entries_to_add : List String :=
        (entriesToAddNets (current_entries.map Prod.fst) network_list).map
          Network.withPrefixlen
      if entries_to_add = [] ∧ entries_to_remove = [] then
        (.ok false, getCalls)
      else
        if entries_to_add ≠ [] ∧ prefix_list.MaxEntries < address_list.length then
          let resizeCall : List AwsCall :=
            [.modifyPrefixListMaxEntries prefix_list.PrefixListId prefix_list_name
              address_list.length]
          let st := client.modifyMax.State
          if ¬ (st = "modify-in-progress" ∨ st = "modify-complete" ∨
              st = "modify-failed") then
            (.error "Error updating VPC Prefix List max entries. Invalid state.",
              getCalls ++ resizeCall)
          else if st = "modify-failed" then
            (.error "Error updating VPC Prefix List max entries. State is modify-failed.",
              getCalls ++ resizeCall)
          else if st = "modify-in-progress" then
            let poll := resizePoll client prefix_list.PrefixListId [0, 1, 2, 3, 4]
            if poll.1 then
              (.ok true, getCalls ++ resizeCall ++ poll.2 ++
                [.modifyPrefixListEntries prefix_list.PrefixListId
                   client.modifyMax.Version prefix_list_name entries_to_add
                   entries_to_remove,
                 .createTags prefix_list.PrefixListId])
            else
              (.error "Error updating VPC Prefix List max entries. Cannot wait anymore.",
                getCalls ++ resizeCall ++ poll.2)
          else
            (.ok true, getCalls ++ resizeCall ++
              [.modifyPrefixListEntries prefix_list.PrefixListId
                 client.modifyMax.Version prefix_list_name entries_to_add
                 entries_to_remove,
               .createTags prefix_list.PrefixListId])
        else
          (.ok true, getCalls ++
            [.modifyPrefixListEntries prefix_list.PrefixListId prefix_list.Version
               prefix_list_name entries_to_add entries_to_remove,
             .createTags prefix_list.PrefixListId])

theorem entriesToRemoveNets_toFinset (C D : List Network) :
    (entriesToRemoveNets C D).toFinset = C.toFinset \ D.toFinset := by
  ext x
  simp [entriesToRemoveNets, List.mem_filter, decide_eq_true_eq]

theorem entriesToAddNets_toFinset (C D : List Network) :
    (entriesToAddNets C D).toFinset = D.toFinset \ C.toFinset := by
  ext x
  simp [entriesToAddNets, List.mem_filter, decide_eq_true_eq]

theorem entriesToRemoveNets_eq_nil_iff (C D : List Network) :
    entriesToRemoveNets C D = [] ↔ C.toFinset \ D.toFinset = ∅ := by
  rw [← entriesToRemoveNets_toFinset, List.toFinset_eq_empty_iff]

theorem entriesToAddNets_eq_nil_iff (C D : List Network) :
    entriesToAddNets C D = [] ↔ D.toFinset \ C.toFinset = ∅ := by
  rw [← entriesToAddNets_toFinset, List.toFinset_eq_empty_iff]

/-- Characterization of `update_waf_ipset` under successful parsing: the
result depends only on the emptiness of the two network-level diffs. -/
theorem update_waf_ipset_spec (wc : WafClient) (ipset_name ipset_scope : String)
    (ipset : WafIPSetData) {address_list : List String}
    {network_list : List Network} {curW : List (Network × String)}
    (h1 : mapOpt ip_network address_list = some network_list)
    (h2 : buildEntriesDict wc.getIpSetAddresses [] = .ok curW) :
    update_waf_ipset wc ipset_name ipset_scope ipset address_list =
      (if entriesToAddNets (curW.map Prod.fst) network_list = [] ∧
          entriesToRemoveNets (curW.map Prod.fst) network_list = [] then
        (.ok false, [.getIpSet ipset_name ipset_scope ipset.Id])
      else
        (.ok true,
          [.getIpSet ipset_name ipset_scope ipset.Id,
           .updateIpSet ipset_name ipset_scope ipset.Id address_list ipset.LockToken,
           .tagResource ipset.ARN])) := by
  unfold update_waf_ipset
  simp only [h1, h2]
  by_cases hc : entriesToAddNets (curW.map Prod.fst) network_list = [] ∧
      entriesToRemoveNets (curW.map Prod.fst) network_list = []
  · rw [if_pos (by simp [List.map_eq_nil, hc.1, hc.2]), if_pos hc]
  · rw [if_neg (by simpa [List.map_eq_nil] using hc), if_neg hc]

theorem resizePoll_calls (client : Ec2Client) (id : String) :
    ∀ counts, ∀ c ∈ (resizePoll client id counts).2,
      (∃ s, c = .sleep s) ∨ c = .describePrefixLists id := by
  intro counts
  induction counts with
  | nil => simp [resizePoll]
  | cons count rest ih =>
    intro c hc
    simp only [resizePoll] at hc
    split at hc
    · rcases List.mem_cons.mp hc with rfl | hc
      · exact Or.inl ⟨_, rfl⟩
      · rcases List.mem_cons.mp hc with rfl | hc
        · exact Or.inr rfl
        · exact absurd hc (by simp)
    · rcases List.mem_append.mp hc with hc | hc
      · rcases List.mem_cons.mp hc with rfl | hc
        · exact Or.inl ⟨_, rfl⟩
        · rcases List.mem_cons.mp hc with rfl | hc
          · exact Or.inr rfl
          · exact absurd hc (by simp)
      · exact ih c hc

theorem resizePoll_no_mutation (client : Ec2Client) (id : String) (counts : List Nat) :
    ((resizePoll client id counts).2).filter AwsCall.isMutation = [] := by
  rw [List.filter_eq_nil]
  intro c hc
  rcases resizePoll_calls client id counts c hc with ⟨s, rfl⟩ | rfl <;> simp [AwsCall.isMutation]

/-- `update_prefix_list` with an empty diff: one read call, no mutation,
returns false. -/
theorem update_prefix_list_empty (ec : Ec2Client) (pl_name : String)
    (pl : PrefixListData) {address_list : List String}
    {network_list : List Network} {curP : List (Network × String)}
    (h1 : mapOpt ip_network address_list = some network_list)
    (h3 : buildPrefixEntriesDict ec.getEntries [] = .ok curP)
    (hc : entriesToAddNets (curP.map Prod.fst) network_list = [] ∧
      entriesToRemoveNets (curP.map Prod.fst) network_list = []) :
    update_prefix_list ec pl_name pl address_list =
      (.ok false, [.getPrefixListEntries pl.PrefixListId pl.Version]) := by
  unfold update_prefix_list
  simp only [h1, h3]
  rw [if_pos (by simp [List.map_eq_nil, hc.1, hc.2])]

/-- `update_prefix_list` with a non-empty diff: some mutation call is always
made, the result is never a false return, and a normal return is true. -/
theorem update_prefix_list_nonempty (ec : Ec2Client) (pl_name : String)
    (pl : PrefixListData) {address_list : List String}
    {network_list : List Network} {curP : List (Network × String)}
    (h1 : mapOpt ip_network address_list = some network_list)
    (h3 : buildPrefixEntriesDict ec.getEntries [] = .ok curP)
    (hc : ¬ (entriesToAddNets (curP.map Prod.fst) network_list = [] ∧
      entriesToRemoveNets (curP.map Prod.fst) network_list = [])) :
    ((update_prefix_list ec pl_name pl address_list).2.filter
        AwsCall.isMutation ≠ []) ∧
      (update_prefix_list ec pl_name pl address_list).1 ≠ .ok false ∧
      (∀ b, (update_prefix_list ec pl_name pl address_list).1 = .ok b →
        b = true) := by
  unfold update_prefix_list
  simp only [h1, h3]
  rw [if_neg (by simp [List.map_eq_nil]; tauto)]
  split_ifs with hrz hs1 hs2 hs3 hp <;>
    refine ⟨?_, ?_, ?_⟩ <;>
      simp [List.filter_append, resizePoll_no_mutation, AwsCall.isMutation]

/-- C1: for both resource kinds the update functions diff the stored entries
against the desired list over parsed networks (never raw strings): the
computed removals are C \ D and the computed additions are D \ C; no remote
mutation call is made and false is returned exactly when both differences are
empty; with a non-empty difference a mutation call is always made and any
normal return is `true`. -/
theorem c1_update_diff_over_parsed_networks
    (wc : WafClient) (ec : Ec2Client) (ipset_name ipset_scope : String)
    (ipset : WafIPSetData) (pl_name : String) (pl : PrefixListData)
    (address_list : List String) (network_list : List Network)
    (curW curP : List (Network × String))
    (h1 : mapOpt ip_network address_list = some network_list)
    (h2 : buildEntriesDict wc.getIpSetAddresses [] = .ok curW)
    (h3 : buildPrefixEntriesDict ec.getEntries [] = .ok curP) :
    ((entriesToRemoveNets (curW.map Prod.fst) network_list).toFinset =
        (curW.map Prod.fst).toFinset \ network_list.toFinset ∧
      (entriesToAddNets (curW.map Prod.fst) network_list).toFinset =
        network_list.toFinset \ (curW.map Prod.fst).toFinset ∧
      (((update_waf_ipset wc ipset_name ipset_scope ipset address_list).1 =
            .ok false ∧
          ((update_waf_ipset wc ipset_name ipset_scope ipset
            address_list).2.filter AwsCall.isMutation) = []) ↔
        ((curW.map Prod.fst).toFinset \ network_list.toFinset = ∅ ∧
          network_list.toFinset \ (curW.map Prod.fst).toFinset = ∅)) ∧
      (¬ ((curW.map Prod.fst).toFinset \ network_list.toFinset = ∅ ∧
            network_list.toFinset \ (curW.map Prod.fst).toFinset = ∅) →
        (update_waf_ipset wc ipset_name ipset_scope ipset address_list).1 =
            .ok true ∧
          ((update_waf_ipset wc ipset_name ipset_scope ipset
            address_list).2.filter AwsCall.isMutation) ≠ [])) ∧
    ((entriesToRemoveNets (curP.map Prod.fst) network_list).toFinset =
        (curP.map Prod.fst).toFinset \ network_list.toFinset ∧
      (entriesToAddNets (curP.map Prod.fst) network_list).toFinset =
        network_list.toFinset \ (curP.map Prod.fst).toFinset ∧
      (((update_prefix_list ec pl_name pl address_list).1 = .ok false ∧
          ((update_prefix_list ec pl_name pl address_list).2.filter
            AwsCall.isMutation) = []) ↔
        ((curP.map Prod.fst).toFinset \ network_list.toFinset = ∅ ∧
          network_list.toFinset \ (curP.map Prod.fst).toFinset = ∅)) ∧
      (¬ ((curP.map Prod.fst).toFinset \ network_list.toFinset = ∅ ∧
            network_list.toFinset \ (curP.map Prod.fst).toFinset = ∅) →
        ((update_prefix_list ec pl_name pl address_list).2.filter
            AwsCall.isMutation) ≠ [] ∧
          ∀ b, (update_prefix_list ec pl_name pl address_list).1 = .ok b →
            b = true)) := by
  have hWspec := update_waf_ipset_spec wc ipset_name ipset_scope ipset h1 h2
  have hEmpty := update_prefix_list_empty ec pl_name pl h1 h3
  have hNonempty := update_prefix_list_nonempty ec pl_name pl h1 h3
  refine ⟨⟨entriesToRemoveNets_toFinset _ _, entriesToAddNets_toFinset _ _, ?_, ?_⟩,
          ⟨entriesToRemoveNets_toFinset _ _, entriesToAddNets_toFinset _ _, ?_, ?_⟩⟩
  · rw [hWspec]
    by_cases hc : entriesToAddNets (curW.map Prod.fst) network_list = [] ∧
        entriesToRemoveNets (curW.map Prod.fst) network_list = []
    · rw [if_pos hc]
      constructor
      · intro _
        exact ⟨(entriesToRemoveNets_eq_nil_iff _ _).mp hc.2,
          (entriesToAddNets_eq_nil_iff _ _).mp hc.1⟩
      · intro _
        refine ⟨rfl, ?_⟩
        simp [AwsCall.isMutation]
    · rw [if_neg hc]
      constructor
      · rintro ⟨hfalse, -⟩
        exact absurd hfalse (by simp)
      · rintro ⟨hrem, hadd⟩
        exact absurd ⟨(entriesToAddNets_eq_nil_iff _ _).mpr hadd,
          (entriesToRemoveNets_eq_nil_iff _ _).mpr hrem⟩ hc
  · intro hne
    have hc : ¬ (entriesToAddNets (curW.map Prod.fst) network_list = [] ∧
        entriesToRemoveNets (curW.map Prod.fst) network_list = []) := by
      rintro ⟨ha, hr⟩
      exact hne ⟨(entriesToRemoveNets_eq_nil_iff _ _).mp hr,
        (entriesToAddNets_eq_nil_iff _ _).mp ha⟩
    rw [hWspec, if_neg hc]
    exact ⟨rfl, by simp [AwsCall.isMutation]⟩
  · by_cases hc : entriesToAddNets (curP.map Prod.fst) network_list = [] ∧
        entriesToRemoveNets (curP.map Prod.fst) network_list = []
    · rw [hEmpty hc]
      constructor
      · intro _
        exact ⟨(entriesToRemoveNets_eq_nil_iff _ _).mp hc.2,
          (entriesToAddNets_eq_nil_iff _ _).mp hc.1⟩
      · intro _
        refine ⟨rfl, ?_⟩
        simp [AwsCall.isMutation]
    · obtain ⟨hmut, hnotfalse, hok⟩ := hNonempty hc
      constructor
      · rintro ⟨hfalse, -⟩
        exact absurd hfalse hnotfalse
      · rintro ⟨hrem, hadd⟩
        exact absurd ⟨(entriesToAddNets_eq_nil_iff _ _).mpr hadd,
          (entriesToRemoveNets_eq_nil_iff _ _).mpr hrem⟩ hc
  · intro hne
    have hc : ¬ (entriesToAddNets (curP.map Prod.fst) network_list = [] ∧
        entriesToRemoveNets (curP.map Prod.fst) network_list = []) := by
      rintro ⟨ha, hr⟩
      exact hne ⟨(entriesToRemoveNets_eq_nil_iff _ _).mp hr,
        (entriesToAddNets_eq_nil_iff _ _).mp ha⟩
    obtain ⟨hmut, hnotfalse, hok⟩ := hNonempty hc
    exact ⟨hmut, hok⟩

theorem c1_update_diff_over_parsed_networks_witness :
    mapOpt ip_network ["10.0.1.0/24"] = some [⟨false, 167772416, 24⟩] ∧
    buildEntriesDict (WafClient.mk ["10.0.0.0/24"]).getIpSetAddresses [] =
      .ok [(⟨false, 167772160, 24⟩, "10.0.0.0/24")] ∧
    buildPrefixEntriesDict (Ec2Client.mk [("10.0.0.0/24", some "d")]
      ⟨1, "modify-complete", ""⟩ (fun _ => "modify-complete") "arn").getEntries [] =
      .ok [(⟨false, 167772160, 24⟩, "d")] ∧
    (entriesToRemoveNets
        ([(⟨false, 167772160, 24⟩, "10.0.0.0/24")].map Prod.fst)
        [⟨false, 167772416, 24⟩]).toFinset =
      ([(⟨false, 167772160, 24⟩, "10.0.0.0/24")].map Prod.fst).toFinset \
        ([⟨false, 167772416, 24⟩] : List Network).toFinset :=
  ⟨by rfl, by rfl, by rfl,
    (c1_update_diff_over_parsed_networks ⟨["10.0.0.0/24"]⟩
      (Ec2Client.mk [("10.0.0.0/24", some "d")] ⟨1, "modify-complete", ""⟩
        (fun _ => "modify-complete") "arn")
      "aws-ip-ranges-x-ipv4" "REGIONAL" ⟨"id", "lt", "d", "arn"⟩
      "aws-ip-ranges-x-ipv4" ⟨"pl-1", 10, 1⟩
      ["10.0.1.0/24"] [⟨false, 167772416, 24⟩]
      [(⟨false, 167772160, 24⟩, "10.0.0.0/24")] [(⟨false, 167772160, 24⟩, "d")]
      (by rfl) (by rfl) (by rfl)).1.1⟩

theorem resizePoll_no_resize (client : Ec2Client) (id : String) (counts : List Nat) :
    ((resizePoll client id counts).2).filter AwsCall.isResize = [] := by
  rw [List.filter_eq_nil]
  intro c hc
  rcases resizePoll_calls client id counts c hc with ⟨s, rfl⟩ | rfl <;>
    simp [AwsCall.isResize]

theorem resizePoll_no_entry_modify (client : Ec2Client) (id : String)
    (counts : List Nat) :
    ((resizePoll client id counts).2).filter AwsCall.isEntryModify = [] := by
  rw [List.filter_eq_nil]
  intro c hc
  rcases resizePoll_calls client id counts c hc with ⟨s, rfl⟩ | rfl <;>
    simp [AwsCall.isEntryModify]

theorem resizePoll_true_exists (client : Ec2Client) (id : String) :
    ∀ counts, (resizePoll client id counts).1 = true →
      ∃ c ∈ counts, client.pollState c = "modify-complete" := by
  intro counts
  induction counts with
  | nil => intro h; exact absurd h (by simp [resizePoll])
  | cons count rest ih =>
    intro h
    simp only [resizePoll] at h
    split at h
    · rename_i hc
      exact ⟨count, by simp, hc⟩
    · rcases ih h with ⟨c, hc, hcs⟩
      exact ⟨c, by simp [hc], hcs⟩

theorem resizePoll_no_resize_or_entry (client : Ec2Client) (id : String)
    (counts : List Nat) :
    ((resizePoll client id counts).2).filter
      (fun c => c.isResize || c.isEntryModify) = [] := by
  rw [List.filter_eq_nil]
  intro c hc
  rcases resizePoll_calls client id counts c hc with ⟨s, rfl⟩ | rfl <;>
    simp [AwsCall.isResize, AwsCall.isEntryModify]

/-- C2: a capacity-resize call is issued if and only if there are entries to
add and the current MaxEntries is strictly below the desired count; any
issued resize targets exactly the desired count; every resize call precedes
every entry add/remove call in the trace; and when an entry call follows a
resize, the resize had been observed complete (directly or by a successful
poll).  No resize occurs when the capacity already suffices. -/
theorem c2_resize_condition
    (ec : Ec2Client) (pl_name : String) (pl : PrefixListData)
    (address_list : List String) (network_list : List Network)
    (curP : List (Network × String))
    (h1 : mapOpt ip_network address_list = some network_list)
    (h3 : buildPrefixEntriesDict ec.getEntries [] = .ok curP) :
    (((update_prefix_list ec pl_name pl address_list).2.any AwsCall.isResize =
        true) ↔
      (entriesToAddNets (curP.map Prod.fst) network_list ≠ [] ∧
        pl.MaxEntries < address_list.length)) ∧
    (∀ id nm k, AwsCall.modifyPrefixListMaxEntries id nm k ∈
        (update_prefix_list ec pl_name pl address_list).2 →
      k = address_list.length) ∧
    ((update_prefix_list ec pl_name pl address_list).2.filter
        (fun c => c.isResize || c.isEntryModify) =
      (update_prefix_list ec pl_name pl address_list).2.filter AwsCall.isResize ++
        (update_prefix_list ec pl_name pl address_list).2.filter
          AwsCall.isEntryModify) ∧
    (((update_prefix_list ec pl_name pl address_list).2.any
          AwsCall.isEntryModify = true ∧
        entriesToAddNets (curP.map Prod.fst) network_list ≠ [] ∧
        pl.MaxEntries < address_list.length) →
      (ec.modifyMax.State = "modify-complete" ∨
        ∃ j, j < 5 ∧ ec.pollState j = "modify-complete")) := by
  unfold update_prefix_list
  simp only [h1, h3]
  by_cases hempty : (entriesToAddNets (curP.map Prod.fst) network_list).map
      Network.withPrefixlen = [] ∧
      (entriesToRemoveNets (curP.map Prod.fst) network_list).map
        Network.withPrefixlen = []
  · rw [if_pos hempty]
    have hadds : entriesToAddNets (curP.map Prod.fst) network_list = [] :=
      List.map_eq_nil.mp hempty.1
    refine ⟨?_, ?_, ?_, ?_⟩
    · simp [AwsCall.isResize, hadds]
    · intro id nm k hk
      simp [AwsCall.isResize] at hk
    · simp [AwsCall.isResize, AwsCall.isEntryModify]
    · intro hcontra
      exact absurd hadds hcontra.2.1
  · rw [if_neg hempty]
    by_cases hrz : (entriesToAddNets (curP.map Prod.fst) network_list).map
        Network.withPrefixlen ≠ [] ∧ pl.MaxEntries < address_list.length
    · rw [if_pos hrz]
      have hadds : entriesToAddNets (curP.map Prod.fst) network_list ≠ [] := by
        intro hx
        exact hrz.1 (by simp [hx])
      by_cases hv : ec.modifyMax.State = "modify-in-progress" ∨
          ec.modifyMax.State = "modify-complete" ∨
          ec.modifyMax.State = "modify-failed"
      · rw [if_neg (not_not.mpr hv)]
        by_cases hfail : ec.modifyMax.State = "modify-failed"
        · rw [if_pos hfail]
          refine ⟨by simp [AwsCall.isResize, hadds, hrz.2], ?_, ?_, ?_⟩
          · intro id nm k hk
            simp only [List.mem_append, List.mem_cons, List.not_mem_nil,
              or_false] at hk
            rcases hk with hk | hk
            · exact absurd hk (by simp)
            · injection hk with e1 e2 e3
          · simp [List.filter_append, AwsCall.isResize, AwsCall.isEntryModify]
          · intro hcontra
            have := hcontra.1
            simp [AwsCall.isEntryModify] at this
        · rw [if_neg hfail]
          by_cases hprog : ec.modifyMax.State = "modify-in-progress"
          · rw [if_pos hprog]
            by_cases hpoll : (resizePoll ec pl.PrefixListId [0, 1, 2, 3, 4]).1 = true
            · rw [if_pos hpoll]
              refine ⟨by simp [AwsCall.isResize, hadds, hrz.2], ?_, ?_, ?_⟩
              · intro id nm k hk
                simp only [List.mem_append, List.mem_cons, List.not_mem_nil,
                  or_false] at hk
                rcases hk with ((hk | hk) | hk) | hk | hk
                · exact absurd hk (by simp)
                · injection hk with e1 e2 e3
                · rcases resizePoll_calls ec pl.PrefixListId _ _ hk with
                    ⟨s, he⟩ | he <;> exact absurd he (by simp)
                · exact absurd hk (by simp)
                · exact absurd hk (by simp)
              · simp [List.filter_append, resizePoll_no_resize,
                  resizePoll_no_entry_modify, resizePoll_no_resize_or_entry,
                  AwsCall.isResize, AwsCall.isEntryModify]
                intro a ha
                rcases resizePoll_calls ec pl.PrefixListId _ _ ha with
                  ⟨s, rfl⟩ | rfl <;> exact ⟨rfl, rfl⟩
              · intro _
                rcases resizePoll_true_exists ec pl.PrefixListId _ hpoll with
                  ⟨c, hc, hcs⟩
                refine Or.inr ⟨c, ?_, hcs⟩
                simp only [List.mem_cons, List.not_mem_nil, or_false] at hc
                omega
            · rw [if_neg hpoll]
              refine ⟨by simp [AwsCall.isResize, hadds, hrz.2], ?_, ?_, ?_⟩
              · intro id nm k hk
                simp only [List.mem_append, List.mem_cons, List.not_mem_nil,
                  or_false] at hk
                rcases hk with (hk | hk) | hk
                · exact absurd hk (by simp)
                · injection hk with e1 e2 e3
                · rcases resizePoll_calls ec pl.PrefixListId _ _ hk with
                    ⟨s, he⟩ | he <;> exact absurd he (by simp)
              · simp [List.filter_append, resizePoll_no_resize,
                  resizePoll_no_entry_modify, resizePoll_no_resize_or_entry,
                  AwsCall.isResize, AwsCall.isEntryModify]
                intro a ha
                rcases resizePoll_calls ec pl.PrefixListId _ _ ha with
                  ⟨s, rfl⟩ | rfl <;> exact ⟨rfl, rfl⟩
              · intro hcontra
                have := hcontra.1
                simp only [List.any_eq_true] at this
                rcases this with ⟨c, hc, hcm⟩
                simp only [List.mem_append, List.mem_cons, List.not_mem_nil,
                  or_false] at hc
                rcases hc with (hc | hc) | hc
                · subst hc; simp [AwsCall.isEntryModify] at hcm
                · subst hc; simp [AwsCall.isEntryModify] at hcm
                · rcases resizePoll_calls ec pl.PrefixListId _ _ hc with
                    ⟨s, rfl⟩ | rfl <;> simp [AwsCall.isEntryModify] at hcm
          · rw [if_neg hprog]
            refine ⟨by simp [AwsCall.isResize, hadds, hrz.2], ?_, ?_, ?_⟩
            · intro id nm k hk
              simp only [List.mem_append, List.mem_cons, List.not_mem_nil,
                or_false] at hk
              rcases hk with (hk | hk) | hk | hk
              · exact absurd hk (by simp)
              · injection hk with e1 e2 e3
              · exact absurd hk (by simp)
              · exact absurd hk (by simp)
            · simp [List.filter_append, AwsCall.isResize, AwsCall.isEntryModify]
            · intro _
              left
              rcases hv with h | h | h
              · exact absurd h hprog
              · exact h
              · exact absurd h hfail
      · rw [if_pos hv]
        refine ⟨by simp [AwsCall.isResize, hadds, hrz.2], ?_, ?_, ?_⟩
        · intro id nm k hk
          simp only [List.mem_append, List.mem_cons, List.not_mem_nil,
            or_false] at hk
          rcases hk with hk | hk
          · exact absurd hk (by simp)
          · injection hk with e1 e2 e3
        · simp [List.filter_append, AwsCall.isResize, AwsCall.isEntryModify]
        · intro hcontra
          have := hcontra.1
          simp [AwsCall.isEntryModify] at this
    · rw [if_neg hrz]
      refine ⟨?_, ?_, ?_, ?_⟩
      · constructor
        · intro hx
          simp [AwsCall.isResize] at hx
        · intro hx
          exact absurd (by simpa [List.map_eq_nil] using hx) hrz
      · intro id nm k hk
        simp [AwsCall.isResize] at hk
      · simp [AwsCall.isResize, AwsCall.isEntryModify]
      · intro hcontra
        exact absurd (by simpa [List.map_eq_nil] using hcontra.2) hrz

theorem c2_resize_condition_witness :
    mapOpt ip_network ["10.0.1.0/24"] =
      some [⟨false, 167772416, 24⟩] ∧
    buildPrefixEntriesDict ([] : List (String × Option String)) [] =
      .ok ([] : List (Network × String)) ∧
    (((update_prefix_list
          ⟨[], ⟨2, "modify-complete", "msg"⟩, fun _ => "modify-complete", "arn"⟩
          "aws-ip-ranges-test-ipv4" ⟨"pl-1", 0, 1⟩ ["10.0.1.0/24"]).2.any
        AwsCall.isResize = true) ↔
      (entriesToAddNets (([] : List (Network × String)).map Prod.fst)
          [⟨false, 167772416, 24⟩] ≠ [] ∧
        (⟨"pl-1", 0, 1⟩ : PrefixListData).MaxEntries <
          (["10.0.1.0/24"] : List String).length)) :=
  ⟨rfl, rfl,
    (c2_resize_condition
        ⟨[], ⟨2, "modify-complete", "msg"⟩, fun _ => "modify-complete", "arn"⟩
        "aws-ip-ranges-test-ipv4" ⟨"pl-1", 0, 1⟩ ["10.0.1.0/24"]
        [⟨false, 167772416, 24⟩] [] rfl rfl).1⟩

/-- In the resize-in-progress scenario, `update_prefix_list` reduces to the
poll loop: entry update only after a successful poll, fatal error after
exhaustion. -/
theorem update_prefix_list_poll_branch
    (ec : Ec2Client) (pl_name : String) (pl : PrefixListData)
    {address_list : List String} {network_list : List Network}
    {curP : List (Network × String)}
    (h1 : mapOpt ip_network address_list = some network_list)
    (h3 : buildPrefixEntriesDict ec.getEntries [] = .ok curP)
    (hadds : entriesToAddNets (curP.map Prod.fst) network_list ≠ [])
    (hmax : pl.MaxEntries < address_list.length)
    (hst : ec.modifyMax.State = "modify-in-progress") :
    update_prefix_list ec pl_name pl address_list =
      (if (resizePoll ec pl.PrefixListId [0, 1, 2, 3, 4]).1 then
        (.ok true,
         [.getPrefixListEntries pl.PrefixListId pl.Version,
          .modifyPrefixListMaxEntries pl.PrefixListId pl_name
            address_list.length] ++
          (resizePoll ec pl.PrefixListId [0, 1, 2, 3, 4]).2 ++
          [.modifyPrefixListEntries pl.PrefixListId ec.modifyMax.Version pl_name
            ((entriesToAddNets (curP.map Prod.fst) network_list).map
              Network.withPrefixlen)
            ((entriesToRemoveNets (curP.map Prod.fst) network_list).map
              Network.withPrefixlen),
           .createTags pl.PrefixListId])
      else
        (.error "Error updating VPC Prefix List max entries. Cannot wait anymore.",
         [.getPrefixListEntries pl.PrefixListId pl.Version,
          .modifyPrefixListMaxEntries pl.PrefixListId pl_name
            address_list.length] ++
          (resizePoll ec pl.PrefixListId [0, 1, 2, 3, 4]).2)) := by
  unfold update_prefix_list
  simp only [h1, h3]
  rw [if_neg (by
    intro hcontra
    exact hadds (by simpa [List.map_eq_nil] using hcontra.1))]
  rw [if_pos ⟨by simpa [List.map_eq_nil] using hadds, hmax⟩]
  rw [if_neg (not_not.mpr (Or.inl hst))]
  rw [if_neg (by simp [hst])]
  rw [if_pos hst]
  rfl

/-- C3: when the resize call reports modify-in-progress, the code polls up to
five times waiting `count + (count + 1)` seconds before each poll.  If every
poll also reports modify-in-progress, exactly five polls occur with waits of
1, 3, 5, 7 and 9 seconds and then a fatal-to-this-resource error is raised,
with no entry update; and when the j-th poll is the first to observe
modify-complete, polling stops there (j + 1 polls) and the update proceeds. -/
theorem c3_resize_poll_bound
    (ec : Ec2Client) (pl_name : String) (pl : PrefixListData)
    (address_list : List String) (network_list : List Network)
    (curP : List (Network × String))
    (h1 : mapOpt ip_network address_list = some network_list)
    (h3 : buildPrefixEntriesDict ec.getEntries [] = .ok curP)
    (hadds : entriesToAddNets (curP.map Prod.fst) network_list ≠ [])
    (hmax : pl.MaxEntries < address_list.length)
    (hst : ec.modifyMax.State = "modify-in-progress") :
    ((∀ i, i < 5 → ec.pollState i = "modify-in-progress") →
      update_prefix_list ec pl_name pl address_list =
        (.error "Error updating VPC Prefix List max entries. Cannot wait anymore.",
         [.getPrefixListEntries pl.PrefixListId pl.Version,
          .modifyPrefixListMaxEntries pl.PrefixListId pl_name address_list.length,
          .sleep 1, .describePrefixLists pl.PrefixListId,
          .sleep 3, .describePrefixLists pl.PrefixListId,
          .sleep 5, .describePrefixLists pl.PrefixListId,
          .sleep 7, .describePrefixLists pl.PrefixListId,
          .sleep 9, .describePrefixLists pl.PrefixListId])) ∧
    (∀ j, j < 5 → ec.pollState j = "modify-complete" →
      (∀ i, i < j → ec.pollState i ≠ "modify-complete") →
      ((update_prefix_list ec pl_name pl address_list).2.count
          (.describePrefixLists pl.PrefixListId) = j + 1 ∧
        (update_prefix_list ec pl_name pl address_list).1 = .ok true)) := by
  have hbr := update_prefix_list_poll_branch ec pl_name pl h1 h3 hadds hmax hst
  constructor
  · intro hall
    have h0 := hall 0 (by omega)
    have hh1 := hall 1 (by omega)
    have hh2 := hall 2 (by omega)
    have hh3 := hall 3 (by omega)
    have hh4 := hall 4 (by omega)
    have hpoll : resizePoll ec pl.PrefixListId [0, 1, 2, 3, 4] =
        (false,
         [.sleep 1, .describePrefixLists pl.PrefixListId,
          .sleep 3, .describePrefixLists pl.PrefixListId,
          .sleep 5, .describePrefixLists pl.PrefixListId,
          .sleep 7, .describePrefixLists pl.PrefixListId,
          .sleep 9, .describePrefixLists pl.PrefixListId]) := by
      simp [resizePoll, h0, hh1, hh2, hh3, hh4]
    rw [hbr, hpoll]
    simp
  · intro j hj hcomp hprev
    rw [hbr]
    interval_cases j
    · have hpoll : resizePoll ec pl.PrefixListId [0, 1, 2, 3, 4] =
          (true, [.sleep 1, .describePrefixLists pl.PrefixListId]) := by
        simp [resizePoll, hcomp]
      rw [hpoll]
      refine ⟨?_, rfl⟩
      simp [List.count_cons]
    · have hpoll : resizePoll ec pl.PrefixListId [0, 1, 2, 3, 4] =
          (true, [.sleep 1, .describePrefixLists pl.PrefixListId,
            .sleep 3, .describePrefixLists pl.PrefixListId]) := by
        simp [resizePoll, hcomp, hprev 0 (by omega)]
      rw [hpoll]
      refine ⟨?_, rfl⟩
      simp [List.count_cons]
    · have hpoll : resizePoll ec pl.PrefixListId [0, 1, 2, 3, 4] =
          (true, [.sleep 1, .describePrefixLists pl.PrefixListId,
            .sleep 3, .describePrefixLists pl.PrefixListId,
            .sleep 5, .describePrefixLists pl.PrefixListId]) := by
        simp [resizePoll, hcomp, hprev 0 (by omega), hprev 1 (by omega)]
      rw [hpoll]
      refine ⟨?_, rfl⟩
      simp [List.count_cons]
    · have hpoll : resizePoll ec pl.PrefixListId [0, 1, 2, 3, 4] =
          (true, [.sleep 1, .describePrefixLists pl.PrefixListId,
            .sleep 3, .describePrefixLists pl.PrefixListId,
            .sleep 5, .describePrefixLists pl.PrefixListId,
            .sleep 7, .describePrefixLists pl.PrefixListId]) := by
        simp [resizePoll, hcomp, hprev 0 (by omega), hprev 1 (by omega),
          hprev 2 (by omega)]
      rw [hpoll]
      refine ⟨?_, rfl⟩
      simp [List.count_cons]
    · have hpoll : resizePoll ec pl.PrefixListId [0, 1, 2, 3, 4] =
          (true, [.sleep 1, .describePrefixLists pl.PrefixListId,
            .sleep 3, .describePrefixLists pl.PrefixListId,
            .sleep 5, .describePrefixLists pl.PrefixListId,
            .sleep 7, .describePrefixLists pl.PrefixListId,
            .sleep 9, .describePrefixLists pl.PrefixListId]) := by
        simp [resizePoll, hcomp, hprev 0 (by omega), hprev 1 (by omega),
          hprev 2 (by omega), hprev 3 (by omega)]
      rw [hpoll]
      refine ⟨?_, rfl⟩
      simp [List.count_cons]

theorem c3_resize_poll_bound_witness :
    mapOpt ip_network ["10.0.1.0/24"] =
      some [⟨false, 167772416, 24⟩] ∧
    buildPrefixEntriesDict ([] : List (String × Option String)) [] =
      .ok ([] : List (Network × String)) ∧
    entriesToAddNets (([] : List (Network × String)).map Prod.fst)
      [⟨false, 167772416, 24⟩] ≠ [] ∧
    (⟨"pl-2", 0, 1⟩ : PrefixListData).MaxEntries <
      (["10.0.1.0/24"] : List String).length ∧
    (Ec2Client.mk [] ⟨7, "modify-in-progress", "msg"⟩
        (fun _ => "modify-in-progress") "arn").modifyMax.State =
      "modify-in-progress" ∧
    update_prefix_list
        ⟨[], ⟨7, "modify-in-progress", "msg"⟩, fun _ => "modify-in-progress",
          "arn"⟩
        "aws-ip-ranges-test-ipv4" ⟨"pl-2", 0, 1⟩ ["10.0.1.0/24"] =
      (.error "Error updating VPC Prefix List max entries. Cannot wait anymore.",
       [.getPrefixListEntries "pl-2" 1,
        .modifyPrefixListMaxEntries "pl-2" "aws-ip-ranges-test-ipv4" 1,
        .sleep 1, .describePrefixLists "pl-2",
        .sleep 3, .describePrefixLists "pl-2",
        .sleep 5, .describePrefixLists "pl-2",
        .sleep 7, .describePrefixLists "pl-2",
        .sleep 9, .describePrefixLists "pl-2"]) :=
  ⟨rfl, rfl, by decide, by decide, rfl,
    (c3_resize_poll_bound
        ⟨[], ⟨7, "modify-in-progress", "msg"⟩, fun _ => "modify-in-progress",
          "arn"⟩
        "aws-ip-ranges-test-ipv4" ⟨"pl-2", 0, 1⟩ ["10.0.1.0/24"]
        [⟨false, 167772416, 24⟩] [] rfl rfl (by decide) (by decide) rfl).1
      (fun i _ => rfl)⟩

/-! ## The manage layer of `app.py` -/

/-- Python `service_name.lower().replace(.., ..)` as used when building
resource names: lowercase every character and turn underscores into
dashes. -/
def lowerDash (s : String) : String :=
  ⟨s.data.map (fun c => if c.toLower = '_' then '-' else c.toLower)⟩

/-- Python `str.upper()` on the ASCII version strings used here. -/
def upperAscii (s : String) : String :=
  ⟨s.data.map Char.toUpper⟩

/-- The resource name `f"{RESOURCE_NAME_PREFIX}-{...}-{ip_version}"` of
lines 238/439, with RESOURCE_NAME_PREFIX = "aws-ip-ranges" (line 16). -/
def resource_name (service_name ip_version : String) : String :=
  "aws-ip-ranges" ++ "-" ++ lowerDash service_name ++ "-" ++ ip_version

/-- The `ServiceIPRange` dataclass: the per-service pair of family lists. -/
structure ServiceIPRange where
  ipv4 : IPv4List
  ipv6 : IPv6List
deriving Repr, DecidableEq

def isPrefixOfCh : List Char → List Char → Bool
  | [], _ => true
  | _ :: _, [] => false
  | a :: as, b :: bs => a == b && isPrefixOfCh as bs

def containsSubCh (needle : List Char) : List Char → Bool
  | [] => isPrefixOfCh needle []
  | c :: rest => isPrefixOfCh needle (c :: rest) || containsSubCh needle rest

/-- Python substring membership `needle in hay`. -/
def strContainsStr (hay needle : String) : Bool :=
  containsSubCh needle.data hay.data

/-- The RAM share-creation call. -/
def AwsCall.isShare : AwsCall → Bool
  | .createResourceShare _ _ _ => true
  | _ => false

/-- The create/listing calls of each kind. -/
def AwsCall.isCreate : AwsCall → Bool
  | .createIpSet _ _ _ _ => true
  | .createManagedPrefixList _ _ _ _ => true
  | _ => false

/-- One `ip_version` iteration of the `manage_waf_ipset` loop (lines
227..250): skip an empty family entirely; otherwise maybe summarize, then
update the IPSet when its name is listed, else create it.  Returns the
(created, updated) name lists and the trace; `summa` is the value
`summarized()` would return (`none` modelling its ValueError). -/
def wafFamilyStep (client : WafClient)
    (waf_ipsets : List (String × WafIPSetData))
    (service_name ipset_scope ip_version : String) (ip_list : List String)
    (summa : Option (List String)) (should_summarize : Bool) :
    Except String (List String × List String) × List AwsCall :=
  if ip_list = [] then (.ok ([], []), [])
  else
    match (if should_summarize ∧ 1 < ip_list.length then summa
        else some ip_list) with
    | none => (.error "ValueError", [])
    | some address_list =>
      let ipset_name := resource_name service_name ip_version
      match dictGet ipset_name waf_ipsets with
      | some ipset =>
        match update_waf_ipset client ipset_name ipset_scope ipset
            address_list with
        | (.ok true, tr) => (.ok ([], [ipset_name]), tr)
        | (.ok false, tr) => (.ok ([], []), tr)
        | (.error e, tr) => (.error e, tr)
      | none =>
        (.ok ([ipset_name], []),
          [.createIpSet ipset_name ipset_scope (upperAscii ip_version)
            address_list])

/-- Sequencing of the two family iterations: a raised error in the first
aborts the loop (the names collected so far are lost to the caller). -/
def combineSteps
    (s4 s6 : Except String (List String × List String) × List AwsCall) :
    Except String (List String × List String) × List AwsCall :=
  match s4 with
  | (.error e, tr) => (.error e, tr)
  | (.ok n4, tr4) =>
    match s6 with
    | (.error e, tr6) => (.error e, tr4 ++ tr6)
    | (.ok n6, tr6) => (.ok (n4.1 ++ n6.1, n4.2 ++ n6.2), tr4 ++ tr6)

/-- `manage_waf_ipset`: the loop over `['ipv4', 'ipv6']`. -/
def manage_waf_ipset (client : WafClient)
    (waf_ipsets : List (String × WafIPSetData))
    (service_name ipset_scope : String) (sr : ServiceIPRange)
    (should_summarize : Bool) :
    Except String (List String × List String) × List AwsCall :=
  combineSteps
    (wafFamilyStep client waf_ipsets service_name ipset_scope "ipv4"
      sr.ipv4.ip_list ((sr.ipv4.summarized).map Prod.fst) should_summarize)
    (wafFamilyStep client waf_ipsets service_name ipset_scope "ipv6"
      sr.ipv6.ip_list ((sr.ipv6.summarized).map Prod.fst) should_summarize)

/-- One `ip_version` iteration of the `manage_prefix_list` loop (lines
429..459): skip an empty family; otherwise maybe summarize, then update the
prefix list when its name is listed, else create it (with max entries
`len + 10`) and, when sharing is on, create a RAM share for it — unless the
configured organization ARN contains the substring the code checks for
(line 456), in which case sharing is skipped with a warning. -/
def plFamilyStep (client : Ec2Client)
    (vpc_prefix_lists : List (String × PrefixListData))
    (service_name ip_version : String) (ip_list : List String)
    (summa : Option (List String)) (should_summarize should_share : Bool)
    (aws_org_arn : String) :
    Except String (List String × List String) × List AwsCall :=
  if ip_list = [] then (.ok ([], []), [])
  else
    match (if should_summarize ∧ 1 < ip_list.length then summa
        else some ip_list) with
    | none => (.error "ValueError", [])
    | some address_list =>
      let prefix_list_name := resource_name service_name ip_version
      match dictGet prefix_list_name vpc_prefix_lists with
      | some pl =>
        match update_prefix_list client prefix_list_name pl address_list with
        | (.ok true, tr) => (.ok ([], [prefix_list_name]), tr)
        | (.ok false, tr) => (.ok ([], []), tr)
        | (.error e, tr) => (.error e, tr)
      | none =>
        let createCalls : List AwsCall :=
          [.createManagedPrefixList prefix_list_name address_list
            (address_list.length + 10) (upperAscii ip_version)]
        if should_share then
          if strContainsStr aws_org_arn "unset" = true then
            (.ok ([prefix_list_name], []), createCalls)
          else
            (.ok ([prefix_list_name], []),
              createCalls ++
                [.createResourceShare prefix_list_name client.createArn
                  aws_org_arn])
        else
          (.ok ([prefix_list_name], []), createCalls)

/-- `manage_prefix_list`: the loop over `['ipv4', 'ipv6']`, with the
module-level `AWS_ORG_ARN` environment value passed explicitly. -/
def manage_prefix_list (client : Ec2Client)
    (vpc_prefix_lists : List (String × PrefixListData))
    (service_name : String) (sr : ServiceIPRange)
    (should_summarize should_share : Bool) (aws_org_arn : String) :
    Except String (List String × List String) × List AwsCall :=
  combineSteps
    (plFamilyStep client vpc_prefix_lists service_name "ipv4"
      sr.ipv4.ip_list ((sr.ipv4.summarized).map Prod.fst) should_summarize
      should_share aws_org_arn)
    (plFamilyStep client vpc_prefix_lists service_name "ipv6"
      sr.ipv6.ip_list ((sr.ipv6.summarized).map Prod.fst) should_summarize
      should_share aws_org_arn)

theorem combineSteps_left_id
    (s : Except String (List String × List String) × List AwsCall) :
    combineSteps (.ok ([], []), []) s = s := by
  rcases s with ⟨r, tr⟩
  cases r <;> simp [combineSteps]

theorem combineSteps_right_id
    (s : Except String (List String × List String) × List AwsCall) :
    combineSteps s (.ok ([], []), []) = s := by
  rcases s with ⟨r, tr⟩
  cases r <;> simp [combineSteps]

/-- C5: a family whose desired CIDR list is empty triggers no action at all:
the family iteration of either manage function makes no remote call and
records no name, and the whole manage call reduces to the other family's
iteration alone. -/
theorem c5_empty_family_no_action :
    (∀ client waf_ipsets service_name ipset_scope ip_version summa
        should_summarize,
      wafFamilyStep client waf_ipsets service_name ipset_scope ip_version []
        summa should_summarize = (.ok ([], []), [])) ∧
    (∀ client vpls service_name ip_version summa should_summarize should_share
        arn,
      plFamilyStep client vpls service_name ip_version [] summa
        should_summarize should_share arn = (.ok ([], []), [])) ∧
    (∀ client waf_ipsets service_name ipset_scope cache x6 should_summarize,
      manage_waf_ipset client waf_ipsets service_name ipset_scope
        ⟨⟨[], cache⟩, x6⟩ should_summarize =
      wafFamilyStep client waf_ipsets service_name ipset_scope "ipv6"
        x6.ip_list ((x6.summarized).map Prod.fst) should_summarize) ∧
    (∀ client vpls service_name x4 cache should_summarize should_share arn,
      manage_prefix_list client vpls service_name ⟨x4, ⟨[], cache⟩⟩
        should_summarize should_share arn =
      plFamilyStep client vpls service_name "ipv4" x4.ip_list
        ((x4.summarized).map Prod.fst) should_summarize should_share arn) := by
  refine ⟨fun _ _ _ _ _ _ _ => rfl, fun _ _ _ _ _ _ _ _ => rfl, ?_, ?_⟩
  · intro client waf_ipsets service_name ipset_scope cache x6 should_summarize
    unfold manage_waf_ipset
    exact combineSteps_left_id _
  · intro client vpls service_name x4 cache should_summarize should_share arn
    unfold manage_prefix_list
    exact combineSteps_right_id _

/-- C9 counterexample: with the sharing destination genuinely not configured
(the `AWS_ORG_ARN` environment variable missing, so the module default ""),
the sharing step is NOT skipped on a first-time creation: a RAM
share-creation call is made, with the empty string as principal. -/
theorem c9_counterexample_share_attempted_when_missing :
    plFamilyStep ⟨[], ⟨0, "s", "m"⟩, fun _ => "s", "arn:aws:ec2:pl-new"⟩ []
        "CLOUDFRONT" "ipv4" ["10.0.0.0/24"] none false true "" =
      (.ok (["aws-ip-ranges-cloudfront-ipv4"], []),
       [.createManagedPrefixList "aws-ip-ranges-cloudfront-ipv4"
          ["10.0.0.0/24"] 11 "IPV4",
        .createResourceShare "aws-ip-ranges-cloudfront-ipv4"
          "arn:aws:ec2:pl-new" ""]) := by
  rfl

/-- C9 (amended): on a first-time creation with sharing enabled, the creation
is recorded as created whatever the organization-ARN configuration, and the
share-creation call is skipped exactly when the configured ARN contains the
substring checked at line 456; with the unset-environment default "" the
share call is still attempted. -/
theorem c9_amended_share_skip_condition
    (client : Ec2Client) (vpls : List (String × PrefixListData))
    (service_name ip_version : String) (ip_list : List String)
    (summa : Option (List String)) (should_summarize : Bool) (arn : String)
    (address_list : List String)
    (hne : ip_list ≠ [])
    (haddr : (if should_summarize ∧ 1 < ip_list.length then summa
        else some ip_list) = some address_list)
    (hcreate : dictGet (resource_name service_name ip_version) vpls = none) :
    (plFamilyStep client vpls service_name ip_version ip_list summa
        should_summarize true arn).1 =
      .ok ([resource_name service_name ip_version], []) ∧
    (((plFamilyStep client vpls service_name ip_version ip_list summa
        should_summarize true arn).2.any AwsCall.isShare = true) ↔
      strContainsStr arn "unset" = false) ∧
    .createManagedPrefixList (resource_name service_name ip_version)
        address_list (address_list.length + 10) (upperAscii ip_version) ∈
      (plFamilyStep client vpls service_name ip_version ip_list summa
        should_summarize true arn).2 := by
  have hstep : plFamilyStep client vpls service_name ip_version ip_list summa
      should_summarize true arn =
      (.ok ([resource_name service_name ip_version], []),
        [.createManagedPrefixList (resource_name service_name ip_version)
          address_list (address_list.length + 10) (upperAscii ip_version)] ++
        (if strContainsStr arn "unset" = true then []
          else [.createResourceShare (resource_name service_name ip_version)
            client.createArn arn])) := by
    unfold plFamilyStep
    rw [if_neg hne, haddr]
    simp only [hcreate]
    cases hb : strContainsStr arn "unset" <;> simp [hb]
  refine ⟨by rw [hstep], ?_, by rw [hstep]; simp⟩
  rw [hstep]
  cases hb : strContainsStr arn "unset" <;> simp [hb, AwsCall.isShare]

theorem c9_amended_share_skip_condition_witness :
    (["10.0.0.0/24"] : List String) ≠ [] ∧
    (if (false : Bool) ∧ 1 < (["10.0.0.0/24"] : List String).length then
        (none : Option (List String))
      else some ["10.0.0.0/24"]) = some ["10.0.0.0/24"] ∧
    dictGet (resource_name "CLOUDFRONT" "ipv4")
      ([] : List (String × PrefixListData)) = none ∧
    (((plFamilyStep ⟨[], ⟨0, "s", "m"⟩, fun _ => "s", "arn:aws:ec2:pl-new"⟩ []
        "CLOUDFRONT" "ipv4" ["10.0.0.0/24"] none false true
        "arn:aws:organizations::123456789012:organization/o-abc").2.any
          AwsCall.isShare = true) ↔
      strContainsStr "arn:aws:organizations::123456789012:organization/o-abc"
        "unset" = false) :=
  ⟨by decide, rfl, rfl,
    (c9_amended_share_skip_condition
        ⟨[], ⟨0, "s", "m"⟩, fun _ => "s", "arn:aws:ec2:pl-new"⟩ []
        "CLOUDFRONT" "ipv4" ["10.0.0.0/24"] none false
        "arn:aws:organizations::123456789012:organization/o-abc"
        ["10.0.0.0/24"] (by decide) rfl rfl).2.1⟩

/-! ## `get_ranges_for_service` -/

/-- The per-service entries of the configuration file's `Services` list:
the service name, the region filter, and the optional resource sections. -/
structure PrefixListCfg where
  Enable : Bool
  Summarize : Bool
deriving Repr, DecidableEq

structure WafCfg where
  Enable : Bool
  Summarize : Bool
  Scopes : List String
deriving Repr, DecidableEq

structure ConfigService where
  Name : String
  Regions : List String
  PrefixListSection : Option PrefixListCfg
  WafIPSetSection : Option WafCfg
deriving Repr, DecidableEq

/-- One record of the feed's `prefixes` / `ipv6_prefixes` arrays. -/
structure FeedRecord where
  service : String
  region : String
  cidr : String
deriving Repr, DecidableEq

/-- Python `key in dict`. -/
def dictContains {α β : Type} [DecidableEq α] (k : α) (d : List (α × β)) :
    Bool :=
  (dictGet k d).isSome

/-- The inner region loop of lines 160..165: one control key
`f"{service_name}-{region}"` per region, and (re-)initialize the service's
entry of `service_ranges`. -/
def insertRegions (name : String) : List String → List (String × Bool) →
    List (String × ServiceIPRange) →
    (List (String × Bool)) × List (String × ServiceIPRange)
  | [], control, ranges => (control, ranges)
  | r :: rest, control, ranges =>
    insertRegions name rest (dictInsert control (name ++ "-" ++ r) true)
      (dictInsert ranges name ⟨⟨[], []⟩, ⟨[], []⟩⟩)

/-- The `service_control` / `service_ranges` building loop of lines
157..171. -/
def buildServiceControl : List ConfigService → List (String × Bool) →
    List (String × ServiceIPRange) →
    (List (String × Bool)) × List (String × ServiceIPRange)
  | [], control, ranges => (control, ranges)
  | cs :: rest, control, ranges =>
    if 0 < cs.Regions.length then
      buildServiceControl rest
        (insertRegions cs.Name cs.Regions control ranges).1
        (insertRegions cs.Name cs.Regions control ranges).2
    else
      buildServiceControl rest (dictInsert control cs.Name true)
        (dictInsert ranges cs.Name ⟨⟨[], []⟩, ⟨[], []⟩⟩)

/-- `service_ranges[service_name].ipv4.ip_list.append(cidr)`: mutate the
dictionary entry in place; a missing key raises `KeyError`. -/
def appendRangeV4 : List (String × ServiceIPRange) → String → String →
    Except String (List (String × ServiceIPRange))
  | [], _, _ => .error "KeyError"
  | (k, v) :: d, name, cidr =>
    if k = name then
      .ok ((k, { v with ipv4 := { v.ipv4 with
        ip_list := v.ipv4.ip_list ++ [cidr] } }) :: d)
    else
      match appendRangeV4 d name cidr with
      | .ok d2 => .ok ((k, v) :: d2)
      | .error e => .error e

def appendRangeV6 : List (String × ServiceIPRange) → String → String →
    Except String (List (String × ServiceIPRange))
  | [], _, _ => .error "KeyError"
  | (k, v) :: d, name, cidr =>
    if k = name then
      .ok ((k, { v with ipv6 := { v.ipv6 with
        ip_list := v.ipv6.ip_list ++ [cidr] } }) :: d)
    else
      match appendRangeV6 d name cidr with
      | .ok d2 => .ok ((k, v) :: d2)
      | .error e => .error e

/-- The IPv4 record loop of lines 175..186: try the
`f"{service}-{region}"` control key first, then the bare `f"{service}"`
key; on a match append the record's CIDR to the record's service. -/
def rangesLoopV4 (control : List (String × Bool)) :
    List FeedRecord → List (String × ServiceIPRange) →
    Except String (List (String × ServiceIPRange))
  | [], ranges => .ok ranges
  | p :: rest, ranges =>
    if dictContains (p.service ++ "-" ++ p.region) control then
      match appendRangeV4 ranges p.service p.cidr with
      | .ok r2 => rangesLoopV4 control rest r2
      | .error e => .error e
    else if dictContains p.service control then
      match appendRangeV4 ranges p.service p.cidr with
      | .ok r2 => rangesLoopV4 control rest r2
      | .error e => .error e
    else rangesLoopV4 control rest ranges

/-- The IPv6 record loop of lines 190..201. -/
def rangesLoopV6 (control : List (String × Bool)) :
    List FeedRecord → List (String × ServiceIPRange) →
    Except String (List (String × ServiceIPRange))
  | [], ranges => .ok ranges
  | p :: rest, ranges =>
    if dictContains (p.service ++ "-" ++ p.region) control then
      match appendRangeV6 ranges p.service p.cidr with
      | .ok r2 => rangesLoopV6 control rest r2
      | .error e => .error e
    else if dictContains p.service control then
      match appendRangeV6 ranges p.service p.cidr with
      | .ok r2 => rangesLoopV6 control rest r2
      | .error e => .error e
    else rangesLoopV6 control rest ranges

/-- Keys used when sorting strings by their parsed network, as Python
`sorted(.., key=..)` does: a stable sort comparing parsed keys. -/
def sortByNetKey (l : List (String × Network)) : List (String × Network) :=
  List.insertionSort (fun a b => netLE a.2 b.2) l

/-- `IPv4List.sort` (lines 64..67): when more than one element, sort the
strings by their parsed `IPv4Network` key (the strings are kept). -/
def IPv4List.sort (x : IPv4List) : Except String IPv4List :=
  if 1 < x.ip_list.length then
    match mapOpt parseIPv4Network x.ip_list with
    | none => .error "ValueError"
    | some nets =>
      .ok { x with ip_list := (sortByNetKey (x.ip_list.zip nets)).map Prod.fst }
  else .ok x

/-- `IPv6List.sort` (lines 91..95): when more than one element, parse, sort
the networks, and REPLACE the strings with the exploded renderings. -/
def IPv6List.sort (x : IPv6List) : Except String IPv6List :=
  if 1 < x.ip_list.length then
    match mapOpt parseIPv6Network x.ip_list with
    | none => .error "ValueError"
    | some nets => .ok { x with ip_list := (sortNets nets).map explodedV6 }
  else .ok x

/-- The final sorting loop of lines 204..206. -/
def sortAllRanges : List (String × ServiceIPRange) →
    Except String (List (String × ServiceIPRange))
  | [] => .ok []
  | (k, v) :: d =>
    match v.ipv4.sort with
    | .error e => .error e
    | .ok s4 =>
      match v.ipv6.sort with
      | .error e => .error e
      | .ok s6 =>
        match sortAllRanges d with
        | .error e => .error e
        | .ok d2 => .ok ((k, ⟨s4, s6⟩) :: d2)

/-- `get_ranges_for_service`: build the control keys, run both record
loops, then sort every list. -/
def get_ranges_for_service (prefixes ipv6_prefixes : List FeedRecord)
    (config_services : List ConfigService) :
    Except String (List (String × ServiceIPRange)) :=
  match rangesLoopV4 (buildServiceControl config_services [] []).1 prefixes
      (buildServiceControl config_services [] []).2 with
  | .error e => .error e
  | .ok r1 =>
    match rangesLoopV6 (buildServiceControl config_services [] []).1
        ipv6_prefixes r1 with
    | .error e => .error e
    | .ok r2 => sortAllRanges r2

theorem append_dash_inj (a : List Char) : ∀ (c b d : List Char),
    '-' ∉ a → '-' ∉ c → a ++ '-' :: b = c ++ '-' :: d → a = c ∧ b = d := by
  induction a with
  | nil =>
    intro c b d _ hc h
    cases c with
    | nil => simpa using h
    | cons y ys =>
      simp only [List.nil_append, List.cons_append, List.cons.injEq] at h
      rcases h with ⟨rfl, -⟩
      exact absurd (List.mem_cons_self _ _) hc
  | cons x xs ih =>
    intro c b d ha hc h
    cases c with
    | nil =>
      simp only [List.cons_append, List.nil_append, List.cons.injEq] at h
      rcases h with ⟨rfl, -⟩
      exact absurd (List.mem_cons_self _ _) ha
    | cons y ys =>
      simp only [List.cons_append, List.cons.injEq] at h
      rcases h with ⟨rfl, h2⟩
      have ha2 : '-' ∉ xs := fun hm => ha (List.mem_cons_of_mem _ hm)
      have hc2 : '-' ∉ ys := fun hm => hc (List.mem_cons_of_mem _ hm)
      rcases ih ys b d ha2 hc2 h2 with ⟨rfl, rfl⟩
      exact ⟨rfl, rfl⟩

theorem string_key_data (s r : String) :
    (s ++ "-" ++ r).data = s.data ++ '-' :: r.data := by
  simp

/-- Dash-free service names make the control keys unambiguous. -/
theorem svcKey_inj {s r c d : String} (hs : '-' ∉ s.data)
    (hc : '-' ∉ c.data) (h : s ++ "-" ++ r = c ++ "-" ++ d) :
    s = c ∧ r = d := by
  have h2 : s.data ++ '-' :: r.data = c.data ++ '-' :: d.data := by
    rw [← string_key_data, ← string_key_data, h]
  rcases append_dash_inj s.data c.data r.data d.data hs hc h2 with ⟨h3, h4⟩
  exact ⟨String.ext h3, String.ext h4⟩

/-- A dash-free string is not a control key of the region form. -/
theorem svcKey_ne {c : String} (s r : String) (hc : '-' ∉ c.data) :
    c ≠ s ++ "-" ++ r := by
  intro h
  apply hc
  rw [h, string_key_data]
  exact List.mem_append_right _ (List.mem_cons_self _ _)

theorem dictContains_iff {α β : Type} [DecidableEq α] (k : α)
    (d : List (α × β)) :
    dictContains k d = true ↔ k ∈ d.map Prod.fst := by
  induction d with
  | nil => simp [dictContains, dictGet]
  | cons p rest ih =>
    by_cases hp : p.1 = k
    · simp [dictContains, dictGet, hp]
    · simp only [dictContains, dictGet, if_neg hp, List.map_cons,
        List.mem_cons]
      rw [show (dictGet k rest).isSome = dictContains k rest from rfl, ih]
      constructor
      · exact Or.inr
      · rintro (rfl | hm)
        · exact absurd rfl hp
        · exact hm

theorem mem_keys_dictInsert {α β : Type} [DecidableEq α]
    (d : List (α × β)) (k : α) (v : β) (x : α) :
    x ∈ (dictInsert d k v).map Prod.fst ↔ x = k ∨ x ∈ d.map Prod.fst := by
  induction d with
  | nil => simp [dictInsert]
  | cons p rest ih =>
    by_cases hp : p.1 = k
    · rw [dictInsert, if_pos hp]
      simp only [List.map_cons, List.mem_cons, hp]
      tauto
    · rw [dictInsert, if_neg hp]
      simp only [List.map_cons, List.mem_cons, ih]
      tauto

theorem mem_keys_insertRegions (name : String) (rs : List String) :
    ∀ (control : List (String × Bool))
      (ranges : List (String × ServiceIPRange)) (x : String),
    (x ∈ ((insertRegions name rs control ranges).1).map Prod.fst ↔
      x ∈ control.map Prod.fst ∨ ∃ r ∈ rs, x = name ++ "-" ++ r) := by
  induction rs with
  | nil => simp [insertRegions]
  | cons r rest ih =>
    intro control ranges x
    rw [insertRegions, ih, mem_keys_dictInsert]
    constructor
    · rintro ((rfl | hc) | ⟨r2, hr2, rfl⟩)
      · exact Or.inr ⟨r, List.mem_cons_self _ _, rfl⟩
      · exact Or.inl hc
      · exact Or.inr ⟨r2, List.mem_cons_of_mem _ hr2, rfl⟩
    · rintro (hc | ⟨r2, hr2, rfl⟩)
      · exact Or.inl (Or.inr hc)
      · rcases List.mem_cons.mp hr2 with rfl | hr2
        · exact Or.inl (Or.inl rfl)
        · exact Or.inr ⟨r2, hr2, rfl⟩

theorem mem_keys_buildServiceControl (cfg : List ConfigService) :
    ∀ (control : List (String × Bool))
      (ranges : List (String × ServiceIPRange)) (x : String),
    (x ∈ ((buildServiceControl cfg control ranges).1).map Prod.fst ↔
      x ∈ control.map Prod.fst ∨
        ∃ cs ∈ cfg, (∃ r ∈ cs.Regions, x = cs.Name ++ "-" ++ r) ∨
          (cs.Regions = [] ∧ x = cs.Name)) := by
  induction cfg with
  | nil => simp [buildServiceControl]
  | cons cs rest ih =>
    intro control ranges x
    by_cases hreg : 0 < cs.Regions.length
    · rw [buildServiceControl, if_pos hreg, ih, mem_keys_insertRegions]
      constructor
      · rintro ((hc | ⟨r, hr, rfl⟩) | ⟨cs2, h2, hp⟩)
        · exact Or.inl hc
        · exact Or.inr ⟨cs, List.mem_cons_self _ _, Or.inl ⟨r, hr, rfl⟩⟩
        · exact Or.inr ⟨cs2, List.mem_cons_of_mem _ h2, hp⟩
      · rintro (hc | ⟨cs2, h2, hp⟩)
        · exact Or.inl (Or.inl hc)
        · rcases List.mem_cons.mp h2 with rfl | h2
          · rcases hp with ⟨r, hr, rfl⟩ | ⟨hregs, rfl⟩
            · exact Or.inl (Or.inr ⟨r, hr, rfl⟩)
            · rw [hregs] at hreg
              simp at hreg
          · exact Or.inr ⟨cs2, h2, hp⟩
    · have hempty : cs.Regions = [] := by
        cases hcs : cs.Regions with
        | nil => rfl
        | cons a l => rw [hcs] at hreg; simp at hreg
      rw [buildServiceControl, if_neg hreg, ih, mem_keys_dictInsert]
      constructor
      · rintro ((rfl | hc) | ⟨cs2, h2, hp⟩)
        · exact Or.inr ⟨cs, List.mem_cons_self _ _, Or.inr ⟨hempty, rfl⟩⟩
        · exact Or.inl hc
        · exact Or.inr ⟨cs2, List.mem_cons_of_mem _ h2, hp⟩
      · rintro (hc | ⟨cs2, h2, hp⟩)
        · exact Or.inl (Or.inr hc)
        · rcases List.mem_cons.mp h2 with rfl | h2
          · rcases hp with ⟨r, hr, rfl⟩ | ⟨-, rfl⟩
            · exact absurd hr (by simp [hempty])
            · exact Or.inl (Or.inl rfl)
          · exact Or.inr ⟨cs2, h2, hp⟩

/-- C4 counterexample: the control keys are bare string concatenations, so a
configured service name containing a dash collides with another service's
(service, region) key.  With services A (regions ["C"]) and A-B (no region
filter), the record (service A, region B) is routed into service A's set
although A's region filter is ["C"] and the matching control key came from
the differently-named service A-B. -/
theorem c4_counterexample_key_collision :
    get_ranges_for_service [⟨"A", "B", "10.0.0.0/24"⟩] []
        [⟨"A", ["C"], none, none⟩, ⟨"A-B", [], none, none⟩] =
      .ok [("A", ⟨⟨["10.0.0.0/24"], []⟩, ⟨[], []⟩⟩),
        ("A-B", ⟨⟨[], []⟩, ⟨[], []⟩⟩)] ∧
    ¬ ("B" ∈ (["C"] : List String)) :=
  ⟨rfl, by decide⟩

/-- C4 (amended): provided no configured service name contains a dash and
the record's service name is dash-free, the record loops behave as the spec
says: a record is picked up exactly when some configured service has exactly
the record's service name and either lists the record's region or has no
region filter; a record matching no control key is skipped; and a matched
record is appended to the entry of exactly the record's service name. -/
theorem c4_region_filter_routing
    (cfg : List ConfigService) (svc reg : String)
    (hnames : ∀ cs ∈ cfg, '-' ∉ cs.Name.data) (hsvc : '-' ∉ svc.data) :
    ((dictContains (svc ++ "-" ++ reg) (buildServiceControl cfg [] []).1 =
        true ∨
      dictContains svc (buildServiceControl cfg [] []).1 = true) ↔
      ∃ cs ∈ cfg, cs.Name = svc ∧ (reg ∈ cs.Regions ∨ cs.Regions = [])) ∧
    (∀ (control : List (String × Bool)) (p : FeedRecord)
        (rest : List FeedRecord) (ranges : List (String × ServiceIPRange)),
      ¬ (dictContains (p.service ++ "-" ++ p.region) control = true ∨
          dictContains p.service control = true) →
      rangesLoopV4 control (p :: rest) ranges =
        rangesLoopV4 control rest ranges ∧
      rangesLoopV6 control (p :: rest) ranges =
        rangesLoopV6 control rest ranges) ∧
    (∀ (control : List (String × Bool)) (p : FeedRecord)
        (rest : List FeedRecord) (ranges : List (String × ServiceIPRange)),
      (dictContains (p.service ++ "-" ++ p.region) control = true ∨
        dictContains p.service control = true) →
      rangesLoopV4 control (p :: rest) ranges =
        (match appendRangeV4 ranges p.service p.cidr with
          | .ok r2 => rangesLoopV4 control rest r2
          | .error e => .error e) ∧
      rangesLoopV6 control (p :: rest) ranges =
        (match appendRangeV6 ranges p.service p.cidr with
          | .ok r2 => rangesLoopV6 control rest r2
          | .error e => .error e)) := by
  refine ⟨?_, ?_, ?_⟩
  · rw [dictContains_iff, dictContains_iff, mem_keys_buildServiceControl,
      mem_keys_buildServiceControl]
    simp only [List.map_nil, List.not_mem_nil, false_or]
    constructor
    · rintro (⟨cs, hmem, ⟨r, hr, hkey⟩ | ⟨hregs, hkey⟩⟩ |
        ⟨cs, hmem, ⟨r, hr, hkey⟩ | ⟨hregs, hkey⟩⟩)
      · rcases svcKey_inj hsvc (hnames cs hmem) hkey with ⟨hname, hreg⟩
        exact ⟨cs, hmem, hname.symm, Or.inl (hreg ▸ hr)⟩
      · exact absurd hkey.symm (svcKey_ne svc reg (hnames cs hmem))
      · exact absurd hkey (svcKey_ne cs.Name r hsvc)
      · exact ⟨cs, hmem, hkey.symm, Or.inr hregs⟩
    · rintro ⟨cs, hmem, hname, hr | hregs⟩
      · exact Or.inl ⟨cs, hmem, Or.inl ⟨reg, hr, by rw [hname]⟩⟩
      · exact Or.inr ⟨cs, hmem, Or.inr ⟨hregs, hname.symm⟩⟩
  · intro control p rest ranges hno
    push_neg at hno
    constructor
    · rw [rangesLoopV4]
      rw [if_neg (by simp [hno.1]), if_neg (by simp [hno.2])]
    · rw [rangesLoopV6]
      rw [if_neg (by simp [hno.1]), if_neg (by simp [hno.2])]
  · intro control p rest ranges hyes
    by_cases h1 : dictContains (p.service ++ "-" ++ p.region) control = true
    · constructor
      · rw [rangesLoopV4, if_pos h1]
      · rw [rangesLoopV6, if_pos h1]
    · have h2 : dictContains p.service control = true := hyes.resolve_left h1
      constructor
      · rw [rangesLoopV4, if_neg h1, if_pos h2]
      · rw [rangesLoopV6, if_neg h1, if_pos h2]

theorem c4_region_filter_routing_witness :
    (∀ cs ∈ [(⟨"CLOUDFRONT", ["us-east-1"], none, none⟩ : ConfigService),
        ⟨"S3", [], none, none⟩], '-' ∉ (ConfigService.Name cs).data) ∧
    '-' ∉ ("CLOUDFRONT" : String).data ∧
    ((dictContains ("CLOUDFRONT" ++ "-" ++ "us-east-1")
        (buildServiceControl [⟨"CLOUDFRONT", ["us-east-1"], none, none⟩,
          ⟨"S3", [], none, none⟩] [] []).1 = true ∨
      dictContains "CLOUDFRONT"
        (buildServiceControl [⟨"CLOUDFRONT", ["us-east-1"], none, none⟩,
          ⟨"S3", [], none, none⟩] [] []).1 = true) ↔
      ∃ cs ∈ [(⟨"CLOUDFRONT", ["us-east-1"], none, none⟩ : ConfigService),
          ⟨"S3", [], none, none⟩],
        ConfigService.Name cs = "CLOUDFRONT" ∧
        ("us-east-1" ∈ ConfigService.Regions cs ∨
          ConfigService.Regions cs = [])) :=
  ⟨by decide, by decide,
    (c4_region_filter_routing
        [⟨"CLOUDFRONT", ["us-east-1"], none, none⟩, ⟨"S3", [], none, none⟩]
        "CLOUDFRONT" "us-east-1" (by decide) (by decide)).1⟩

/-! ## The `lambda_handler` resource loops -/

/-- The remote listing calls. -/
def AwsCall.isListing : AwsCall → Bool
  | .listIpSets _ => true
  | .listPrefixLists => true
  | _ => false

theorem resizePoll_no_listing (client : Ec2Client) (id : String)
    (counts : List Nat) :
    ((resizePoll client id counts).2).filter AwsCall.isListing = [] := by
  rw [List.filter_eq_nil]
  intro c hc
  rcases resizePoll_calls client id counts c hc with ⟨s, rfl⟩ | rfl <;>
    simp [AwsCall.isListing]

theorem update_waf_ipset_no_listing (wc : WafClient)
    (nm sc : String) (ipset : WafIPSetData) (al : List String) :
    ((update_waf_ipset wc nm sc ipset al).2).filter AwsCall.isListing = [] := by
  unfold update_waf_ipset
  split
  · rfl
  · split
    · simp [AwsCall.isListing]
    · dsimp only
      split_ifs <;> simp [AwsCall.isListing]

theorem update_prefix_list_no_listing (ec : Ec2Client) (nm : String)
    (pl : PrefixListData) (al : List String) :
    ((update_prefix_list ec nm pl al).2).filter AwsCall.isListing = [] := by
  unfold update_prefix_list
  split
  · rfl
  · split
    · simp [AwsCall.isListing]
    · dsimp only
      split_ifs <;>
        simp [List.filter_append, resizePoll_no_listing, AwsCall.isListing]

theorem wafFamilyStep_no_listing (client : WafClient)
    (wi : List (String × WafIPSetData)) (nm sc ver : String)
    (l : List String) (summa : Option (List String)) (ss : Bool) :
    ((wafFamilyStep client wi nm sc ver l summa ss).2).filter
      AwsCall.isListing = [] := by
  unfold wafFamilyStep
  split
  · rfl
  · split
    · rfl
    · rename_i address_list haddr
      dsimp only
      split
      · rename_i ipset hget
        split <;> rename_i tr heq
        all_goals (
          have h2 := update_waf_ipset_no_listing client (resource_name nm ver)
            sc ipset address_list;
          rw [heq] at h2;
          exact h2)
      · simp [AwsCall.isListing]

theorem plFamilyStep_no_listing (client : Ec2Client)
    (vpls : List (String × PrefixListData)) (nm ver : String)
    (l : List String) (summa : Option (List String)) (ss sh : Bool)
    (arn : String) :
    ((plFamilyStep client vpls nm ver l summa ss sh arn).2).filter
      AwsCall.isListing = [] := by
  unfold plFamilyStep
  split
  · rfl
  · split
    · rfl
    · rename_i address_list haddr
      dsimp only
      split
      · rename_i pl hget
        split <;> rename_i tr heq
        all_goals (
          have h2 := update_prefix_list_no_listing client
            (resource_name nm ver) pl address_list;
          rw [heq] at h2;
          exact h2)
      · split_ifs <;> simp [AwsCall.isListing]

theorem combineSteps_no_listing
    (s4 s6 : Except String (List String × List String) × List AwsCall)
    (h4 : s4.2.filter AwsCall.isListing = [])
    (h6 : s6.2.filter AwsCall.isListing = []) :
    ((combineSteps s4 s6).2).filter AwsCall.isListing = [] := by
  rcases s4 with ⟨r4, t4⟩
  cases r4 <;> rcases s6 with ⟨r6, t6⟩ <;> cases r6 <;>
    simp_all [combineSteps, List.filter_append]

theorem manage_waf_ipset_no_listing (client : WafClient)
    (wi : List (String × WafIPSetData)) (nm sc : String)
    (sr : ServiceIPRange) (ss : Bool) :
    ((manage_waf_ipset client wi nm sc sr ss).2).filter
      AwsCall.isListing = [] := by
  unfold manage_waf_ipset
  exact combineSteps_no_listing _ _
    (wafFamilyStep_no_listing client wi nm sc "ipv4" _ _ ss)
    (wafFamilyStep_no_listing client wi nm sc "ipv6" _ _ ss)

theorem manage_prefix_list_no_listing (client : Ec2Client)
    (vpls : List (String × PrefixListData)) (nm : String)
    (sr : ServiceIPRange) (ss sh : Bool) (arn : String) :
    ((manage_prefix_list client vpls nm sr ss sh arn).2).filter
      AwsCall.isListing = [] := by
  unfold manage_prefix_list
  exact combineSteps_no_listing _ _
    (plFamilyStep_no_listing client vpls nm "ipv4" _ _ ss sh arn)
    (plFamilyStep_no_listing client vpls nm "ipv6" _ _ ss sh arn)

theorem count_zero_of_filter_nil {tr : List AwsCall} (a : AwsCall)
    (h : tr.filter AwsCall.isListing = []) (ha : AwsCall.isListing a = true) :
    tr.count a = 0 := by
  rw [List.count_eq_zero]
  intro hmem
  have h2 : a ∈ tr.filter AwsCall.isListing := List.mem_filter.mpr ⟨hmem, ha⟩
  rw [h] at h2
  exact absurd h2 (List.not_mem_nil a)

/-- The VPC prefix-list loop of `lambda_handler` (lines 812..840): the
listing cache `vpc_prefix_lists` starts `{}`, and line 829 re-lists whenever
the cache is an EMPTY dict (`if not vpc_prefix_lists:`), not whenever the
listing has not yet been fetched.  `listing` is what `list_prefix_lists`
returns; per-service errors from the manage call are caught and swallowed. -/
def handlePrefixLoop (client : Ec2Client)
    (listing : List (String × PrefixListData))
    (service_ranges : List (String × ServiceIPRange)) (aws_org_arn : String) :
    List ConfigService → List (String × PrefixListData) →
    (List String × List String) × List AwsCall × List (String × PrefixListData)
  | [], cache => (([], []), [], cache)
  | cs :: rest, cache =>
    match dictGet cs.Name service_ranges with
    | none => handlePrefixLoop client listing service_ranges aws_org_arn rest cache
    | some sr =>
      match cs.PrefixListSection with
      | none => handlePrefixLoop client listing service_ranges aws_org_arn rest cache
      | some plc =>
        if plc.Enable = true then
          let listCalls : List AwsCall :=
            if cache = [] then [.listPrefixLists] else []
          let cache2 := if cache = [] then listing else cache
          let m := manage_prefix_list client cache2 cs.Name sr plc.Summarize
            true aws_org_arn
          let names := match m.1 with | .ok n => n | .error _ => ([], [])
          let r := handlePrefixLoop client listing service_ranges aws_org_arn
            rest cache2
          ((names.1 ++ r.1.1, names.2 ++ r.1.2), listCalls ++ m.2 ++ r.2.1,
            r.2.2)
        else handlePrefixLoop client listing service_ranges aws_org_arn rest cache

/-- The scope loop of the WAF branch (lines 861..879): list each scope only
when it is not yet a KEY of `waf_ipsets_by_scope` (membership test, not
truthiness); per-scope errors are caught and swallowed. -/
def handleWafScopes (client : WafClient)
    (scopeListing : String → List (String × WafIPSetData))
    (service_name : String) (sr : ServiceIPRange) (should_summarize : Bool) :
    List String → List (String × List (String × WafIPSetData)) →
    (List String × List String) × List AwsCall ×
      List (String × List (String × WafIPSetData))
  | [], byScope => (([], []), [], byScope)
  | scope :: rest, byScope =>
    let wi := match dictGet scope byScope with
      | some w => w
      | none => scopeListing scope
    let listCalls : List AwsCall :=
      match dictGet scope byScope with
      | some _ => []
      | none => [.listIpSets scope]
    let byScope2 := match dictGet scope byScope with
      | some _ => byScope
      | none => dictInsert byScope scope (scopeListing scope)
    let m := manage_waf_ipset client wi service_name scope sr should_summarize
    let names := match m.1 with | .ok n => n | .error _ => ([], [])
    let r := handleWafScopes client scopeListing service_name sr
      should_summarize rest byScope2
    ((names.1 ++ r.1.1, names.2 ++ r.1.2), listCalls ++ m.2 ++ r.2.1, r.2.2)

/-- The WAF IPSet loop of `lambda_handler` (lines 845..880). -/
def handleWafLoop (client : WafClient)
    (scopeListing : String → List (String × WafIPSetData))
    (service_ranges : List (String × ServiceIPRange)) :
    List ConfigService → List (String × List (String × WafIPSetData)) →
    (List String × List String) × List AwsCall ×
      List (String × List (String × WafIPSetData))
  | [], byScope => (([], []), [], byScope)
  | cs :: rest, byScope =>
    match dictGet cs.Name service_ranges with
    | none => handleWafLoop client scopeListing service_ranges rest byScope
    | some sr =>
      match cs.WafIPSetSection with
      | none => handleWafLoop client scopeListing service_ranges rest byScope
      | some wc =>
        if wc.Enable = true then
          let r1 := handleWafScopes client scopeListing cs.Name sr wc.Summarize
            wc.Scopes byScope
          let r2 := handleWafLoop client scopeListing service_ranges rest r1.2.2
          ((r1.1.1 ++ r2.1.1, r1.1.2 ++ r2.1.2), r1.2.1 ++ r2.2.1, r2.2.2)
        else handleWafLoop client scopeListing service_ranges rest byScope

theorem dictContains_insert {α β : Type} [DecidableEq α]
    (d : List (α × β)) (k k2 : α) (v : β) :
    dictContains k2 (dictInsert d k v) = true ↔
      k2 = k ∨ dictContains k2 d = true := by
  rw [dictContains_iff, mem_keys_dictInsert, dictContains_iff]

theorem handlePrefixLoop_count (client : Ec2Client)
    (listing : List (String × PrefixListData))
    (service_ranges : List (String × ServiceIPRange)) (arn : String)
    (hlist : listing ≠ []) :
    ∀ (cfg : List ConfigService) (cache : List (String × PrefixListData)),
    (handlePrefixLoop client listing service_ranges arn cfg cache).2.1.count
        .listPrefixLists ≤ (if cache = [] then 1 else 0) := by
  intro cfg
  induction cfg with
  | nil =>
    intro cache
    simp [handlePrefixLoop]
  | cons cs rest ih =>
    intro cache
    cases hget : dictGet cs.Name service_ranges with
    | none =>
      simp only [handlePrefixLoop, hget]
      calc (handlePrefixLoop client listing service_ranges arn rest
            cache).2.1.count .listPrefixLists ≤ _ := ih cache
    | some sr =>
      cases hpl : cs.PrefixListSection with
      | none =>
        simp only [handlePrefixLoop, hget, hpl]
        calc (handlePrefixLoop client listing service_ranges arn rest
              cache).2.1.count .listPrefixLists ≤ _ := ih cache
      | some plc =>
        by_cases hen : plc.Enable = true
        · simp only [handlePrefixLoop, hget, hpl, if_pos hen]
          by_cases hc : cache = []
          · simp only [if_pos hc]
            rw [List.count_append, List.count_append]
            have h2 : (manage_prefix_list client listing cs.Name sr
                plc.Summarize true arn).2.count .listPrefixLists = 0 :=
              count_zero_of_filter_nil _
                (manage_prefix_list_no_listing client listing cs.Name sr
                  plc.Summarize true arn) rfl
            have h3 := ih listing
            rw [if_neg hlist] at h3
            have h1 : ([AwsCall.listPrefixLists] : List AwsCall).count
                .listPrefixLists = 1 := rfl
            omega
          · simp only [if_neg hc]
            rw [List.count_append, List.count_append]
            have h2 : (manage_prefix_list client cache cs.Name sr
                plc.Summarize true arn).2.count .listPrefixLists = 0 :=
              count_zero_of_filter_nil _
                (manage_prefix_list_no_listing client cache cs.Name sr
                  plc.Summarize true arn) rfl
            have h3 := ih cache
            rw [if_neg hc] at h3
            have h1 : (([] : List AwsCall)).count .listPrefixLists = 0 := rfl
            omega
        · simp only [handlePrefixLoop, hget, hpl, if_neg hen]
          calc (handlePrefixLoop client listing service_ranges arn rest
                cache).2.1.count .listPrefixLists ≤ _ := ih cache

theorem handleWafScopes_mono (client : WafClient)
    (sl : String → List (String × WafIPSetData)) (nm : String)
    (sr : ServiceIPRange) (ss : Bool) :
    ∀ (scopes : List String)
      (byScope : List (String × List (String × WafIPSetData))) (s : String),
    dictContains s byScope = true →
    dictContains s
      (handleWafScopes client sl nm sr ss scopes byScope).2.2 = true := by
  intro scopes
  induction scopes with
  | nil =>
    intro byScope s h
    simpa [handleWafScopes] using h
  | cons scope rest ih =>
    intro byScope s h
    simp only [handleWafScopes]
    cases hg : dictGet scope byScope with
    | some w =>
      simp only [hg]
      exact ih byScope s h
    | none =>
      simp only [hg]
      exact ih _ s ((dictContains_insert byScope scope s _).mpr (Or.inr h))

theorem handleWafScopes_zero (client : WafClient)
    (sl : String → List (String × WafIPSetData)) (nm : String)
    (sr : ServiceIPRange) (ss : Bool) (s : String) :
    ∀ (scopes : List String)
      (byScope : List (String × List (String × WafIPSetData))),
    dictContains s (handleWafScopes client sl nm sr ss scopes byScope).2.2 =
      false →
    (handleWafScopes client sl nm sr ss scopes byScope).2.1.count
      (.listIpSets s) = 0 := by
  intro scopes
  induction scopes with
  | nil =>
    intro byScope _
    simp [handleWafScopes]
  | cons scope rest ih =>
    intro byScope hfin
    simp only [handleWafScopes] at hfin ⊢
    cases hg : dictGet scope byScope with
    | some w =>
      simp only [hg] at hfin ⊢
      rw [List.count_append, List.count_append]
      have hm : (manage_waf_ipset client w nm scope sr ss).2.count
          (.listIpSets s) = 0 :=
        count_zero_of_filter_nil _
          (manage_waf_ipset_no_listing client w nm scope sr ss) rfl
      have hr := ih byScope hfin
      simp [hm, hr]
    | none =>
      simp only [hg] at hfin ⊢
      have hne : s ≠ scope := by
        intro heq
        have h2 : dictContains s
            (dictInsert byScope scope (sl scope)) = true :=
          (dictContains_insert byScope scope s _).mpr (Or.inl heq)
        have h3 := handleWafScopes_mono client sl nm sr ss rest _ s h2
        rw [h3] at hfin
        exact Bool.noConfusion hfin
      rw [List.count_append, List.count_append]
      have hm : (manage_waf_ipset client (sl scope) nm scope sr ss).2.count
          (.listIpSets s) = 0 :=
        count_zero_of_filter_nil _
          (manage_waf_ipset_no_listing client (sl scope) nm scope sr ss) rfl
      have hr := ih _ hfin
      have h1 : ([AwsCall.listIpSets scope] : List AwsCall).count
          (.listIpSets s) = 0 := by
        simp [List.count_cons, hne]
      simp [hm, hr, h1]

theorem handleWafScopes_bound (client : WafClient)
    (sl : String → List (String × WafIPSetData)) (nm : String)
    (sr : ServiceIPRange) (ss : Bool) (s : String) :
    ∀ (scopes : List String)
      (byScope : List (String × List (String × WafIPSetData))),
    (handleWafScopes client sl nm sr ss scopes byScope).2.1.count
        (.listIpSets s) ≤
      (if dictContains s byScope = true then 0 else 1) := by
  intro scopes
  induction scopes with
  | nil =>
    intro byScope
    simp [handleWafScopes]
  | cons scope rest ih =>
    intro byScope
    simp only [handleWafScopes]
    cases hg : dictGet scope byScope with
    | some w =>
      simp only [hg]
      rw [List.count_append, List.count_append]
      have hm : (manage_waf_ipset client w nm scope sr ss).2.count
          (.listIpSets s) = 0 :=
        count_zero_of_filter_nil _
          (manage_waf_ipset_no_listing client w nm scope sr ss) rfl
      have hr := ih byScope
      have h1 : (([] : List AwsCall)).count (.listIpSets s) = 0 := rfl
      omega
    | none =>
      simp only [hg]
      rw [List.count_append, List.count_append]
      have hm : (manage_waf_ipset client (sl scope) nm scope sr ss).2.count
          (.listIpSets s) = 0 :=
        count_zero_of_filter_nil _
          (manage_waf_ipset_no_listing client (sl scope) nm scope sr ss) rfl
      by_cases hs : s = scope
      · subst hs
        have hb2 : dictContains s (dictInsert byScope s (sl s)) = true :=
          (dictContains_insert byScope s s _).mpr (Or.inl rfl)
        have hr := ih (dictInsert byScope s (sl s))
        rw [if_pos hb2] at hr
        have h1 : ([AwsCall.listIpSets s] : List AwsCall).count
            (.listIpSets s) = 1 := by simp
        have hcont : dictContains s byScope = false := by
          simp [dictContains, hg]
        rw [if_neg (by rw [hcont]; exact Bool.false_ne_true)]
        omega
      · have hb2 : dictContains s (dictInsert byScope scope (sl scope)) =
            dictContains s byScope := by
          cases hcc : dictContains s byScope with
          | true =>
            exact (dictContains_insert byScope scope s _).mpr (Or.inr hcc)
          | false =>
            cases hdd : dictContains s (dictInsert byScope scope (sl scope)) with
            | false => rfl
            | true =>
              rcases (dictContains_insert byScope scope s _).mp hdd with
                rfl | hc2
              · exact absurd rfl hs
              · rw [hc2] at hcc
                exact hcc
        have hr := ih (dictInsert byScope scope (sl scope))
        rw [hb2] at hr
        have h1 : ([AwsCall.listIpSets scope] : List AwsCall).count
            (.listIpSets s) = 0 := by
          simp [List.count_cons, hs]
        omega

theorem handleWafLoop_bound (client : WafClient)
    (sl : String → List (String × WafIPSetData))
    (service_ranges : List (String × ServiceIPRange)) (s : String) :
    ∀ (cfg : List ConfigService)
      (byScope : List (String × List (String × WafIPSetData))),
    (handleWafLoop client sl service_ranges cfg byScope).2.1.count
        (.listIpSets s) ≤
      (if dictContains s byScope = true then 0 else 1) := by
  intro cfg
  induction cfg with
  | nil =>
    intro byScope
    simp [handleWafLoop]
  | cons cs rest ih =>
    intro byScope
    cases hget : dictGet cs.Name service_ranges with
    | none =>
      simp only [handleWafLoop, hget]
      exact ih byScope
    | some sr =>
      cases hw : cs.WafIPSetSection with
      | none =>
        simp only [handleWafLoop, hget, hw]
        exact ih byScope
      | some wc =>
        by_cases hen : wc.Enable = true
        · simp only [handleWafLoop, hget, hw, if_pos hen]
          rw [List.count_append]
          cases hmid : dictContains s
              (handleWafScopes client sl cs.Name sr wc.Summarize wc.Scopes
                byScope).2.2 with
          | true =>
            have hr := ih (handleWafScopes client sl cs.Name sr wc.Summarize
              wc.Scopes byScope).2.2
            rw [if_pos hmid] at hr
            have hsc := handleWafScopes_bound client sl cs.Name sr
              wc.Summarize s wc.Scopes byScope
            by_cases hb : dictContains s byScope = true
            · have h0 := handleWafScopes_zero client sl cs.Name sr wc.Summarize
                s wc.Scopes byScope
              rw [if_pos hb] at hsc
              rw [if_pos hb]
              omega
            · rw [if_neg hb] at hsc
              rw [if_neg hb]
              omega
          | false =>
            have h0 := handleWafScopes_zero client sl cs.Name sr wc.Summarize
              s wc.Scopes byScope hmid
            have hr := ih (handleWafScopes client sl cs.Name sr wc.Summarize
              wc.Scopes byScope).2.2
            rw [if_neg (by rw [hmid]; exact Bool.false_ne_true)] at hr
            split_ifs with hb
            · have hmono := handleWafScopes_mono client sl cs.Name sr
                wc.Summarize wc.Scopes byScope s hb
              rw [hmono] at hmid
              exact Bool.noConfusion hmid
            · omega
        · simp only [handleWafLoop, hget, hw, if_neg hen]
          exact ih byScope

/-- C8 counterexample: the prefix-list listing cache is tested for truthiness
(`if not vpc_prefix_lists:`), so when the account has no prefix lists (the
listing returns an empty dict) every enabled service performs the listing
call again: two enabled services give two `listPrefixLists` calls in one
run. -/
theorem c8_counterexample_empty_listing_relists :
    (handlePrefixLoop ⟨[], ⟨0, "s", "m"⟩, fun _ => "s", "arn"⟩ []
        [("A", ⟨⟨[], []⟩, ⟨[], []⟩⟩), ("B", ⟨⟨[], []⟩, ⟨[], []⟩⟩)] ""
        [⟨"A", [], some ⟨true, false⟩, none⟩,
          ⟨"B", [], some ⟨true, false⟩, none⟩] []).2.1.count
      .listPrefixLists = 2 := by
  rfl

/-- C8 (amended): the WAF listing really is performed at most once per scope
per run (the cache is keyed by scope membership); the prefix-list listing is
performed at most once per run PROVIDED the first listing result is
non-empty — with an empty listing result the cache test `if not
vpc_prefix_lists:` stays falsy and every enabled service re-lists. -/
theorem c8_listing_cached_amended :
    (∀ (client : Ec2Client) (listing : List (String × PrefixListData))
        (service_ranges : List (String × ServiceIPRange)) (arn : String)
        (cfg : List ConfigService),
      listing ≠ [] →
      (handlePrefixLoop client listing service_ranges arn cfg []).2.1.count
        .listPrefixLists ≤ 1) ∧
    (∀ (client : WafClient)
        (sl : String → List (String × WafIPSetData))
        (service_ranges : List (String × ServiceIPRange))
        (cfg : List ConfigService) (s : String),
      (handleWafLoop client sl service_ranges cfg []).2.1.count
        (.listIpSets s) ≤ 1) := by
  constructor
  · intro client listing service_ranges arn cfg hlist
    have h := handlePrefixLoop_count client listing service_ranges arn hlist
      cfg []
    simpa using h
  · intro client sl service_ranges cfg s
    have h := handleWafLoop_bound client sl service_ranges s cfg []
    have h2 : dictContains s ([] : List (String × List (String × WafIPSetData))) = false := rfl
    rw [if_neg (by rw [h2]; exact Bool.false_ne_true)] at h
    exact h

theorem c8_listing_cached_amended_witness :
    ([(("aws-ip-ranges-a-ipv4" : String), (⟨"pl-1", 5, 1⟩ : PrefixListData))] ≠
      ([] : List (String × PrefixListData))) ∧
    (handlePrefixLoop ⟨[], ⟨0, "s", "m"⟩, fun _ => "s", "arn"⟩
        [("aws-ip-ranges-a-ipv4", ⟨"pl-1", 5, 1⟩)]
        [("A", ⟨⟨[], []⟩, ⟨[], []⟩⟩), ("B", ⟨⟨[], []⟩, ⟨[], []⟩⟩)] ""
        [⟨"A", [], some ⟨true, false⟩, none⟩,
          ⟨"B", [], some ⟨true, false⟩, none⟩] []).2.1.count
      .listPrefixLists ≤ 1 :=
  ⟨by decide,
    c8_listing_cached_amended.1 ⟨[], ⟨0, "s", "m"⟩, fun _ => "s", "arn"⟩
      [("aws-ip-ranges-a-ipv4", ⟨"pl-1", 5, 1⟩)]
      [("A", ⟨⟨[], []⟩, ⟨[], []⟩⟩), ("B", ⟨⟨[], []⟩, ⟨[], []⟩⟩)] ""
      [⟨"A", [], some ⟨true, false⟩, none⟩,
        ⟨"B", [], some ⟨true, false⟩, none⟩] (by decide)⟩

theorem c10_cache_never_invalidated_witness :
    IPv4List.summarized ⟨["10.0.0.0/24", "10.0.1.0/24"], []⟩ =
      some (["10.0.0.0/23"], ⟨["10.0.0.0/24", "10.0.1.0/24"], ["10.0.0.0/23"]⟩) ∧
    (["10.0.0.0/23"] : List String) ≠ [] ∧
    IPv4List.summarized
        ⟨["10.0.0.0/24", "10.0.1.0/24"] ++ ["192.168.0.0/16"], ["10.0.0.0/23"]⟩ =
      some (["10.0.0.0/23"],
        ⟨["10.0.0.0/24", "10.0.1.0/24"] ++ ["192.168.0.0/16"], ["10.0.0.0/23"]⟩) :=
  ⟨by decide, by decide,
    c10_cache_never_invalidated.1 ⟨["10.0.0.0/24", "10.0.1.0/24"], []⟩
      ["10.0.0.0/23"] ⟨["10.0.0.0/24", "10.0.1.0/24"], ["10.0.0.0/23"]⟩
      (by decide) (by decide) ["192.168.0.0/16"]⟩

end AwsIpRanges
